import Mathlib

/-! Fake call-stack builder of `src/Source/main.cpp`.

A shallow embedding of `PushToStack` (main.cpp:116-135) and
`InitialiseFakeThreadState` (main.cpp:142-248), followed by the properties
of the two functions that the specification states.

Machine integers are natural numbers reduced modulo `2 ^ 64` (`ULONG64`,
`CONTEXT::Rsp`, pointers) or `2 ^ 32` (`ULONG`).  Process memory is a map from
byte addresses to byte values; a 64-bit store writes eight bytes, least
significant first (x86-64).
-/

namespace FakeStack

/-! ## Machine words and memory -/

/-- Number of values of a 64-bit word (`ULONG64`, `PULONG64`, `CONTEXT::Rsp`). -/
def W64 : Nat := 2 ^ 64

/-- Number of values of a 32-bit word (`ULONG`). -/
def W32 : Nat := 2 ^ 32

/-- Byte-addressed process memory: the byte stored at each address. -/
abbrev Memory := Nat → Nat

/-- Offset of address `x` above `addr`, going round the 64-bit address space. -/
def offsetFrom (addr x : Nat) : Nat := (x + W64 - addr % W64) % W64

/-- The store `*(PULONG64)addr = value`: the eight bytes at `addr`, `addr + 1`, ...,
`addr + 7` (addresses modulo `2 ^ 64`) receive the bytes of `value`, least significant
first; every other byte is kept. -/
def write64 (mem : Memory) (addr value : Nat) : Memory :=
  fun x => if x < W64 ∧ offsetFrom addr x < 8 then value / 256 ^ offsetFrom addr x % 256 else mem x

/-- The byte `i` places above `addr`. -/
def byteAt (mem : Memory) (addr i : Nat) : Nat := mem ((addr + i) % W64) % 256

/-- The load `*(PULONG64)addr`: the eight bytes from `addr` upwards, least significant
first. -/
def read64 (mem : Memory) (addr : Nat) : Nat :=
  byteAt mem addr 0 + 256 * (byteAt mem addr 1 + 256 * (byteAt mem addr 2 +
    256 * (byteAt mem addr 3 + 256 * (byteAt mem addr 4 + 256 * (byteAt mem addr 5 +
    256 * (byteAt mem addr 6 + 256 * byteAt mem addr 7))))))

/-- The integer registers of the Windows x64 `CONTEXT` record.  Only `Rsp` is used by
the two functions; the others are carried along. -/
structure CONTEXT where
  Rax : Nat
  Rcx : Nat
  Rdx : Nat
  Rbx : Nat
  Rsp : Nat
  Rbp : Nat
  Rsi : Nat
  Rdi : Nat
  R8 : Nat
  R9 : Nat
  R10 : Nat
  R11 : Nat
  R12 : Nat
  R13 : Nat
  R14 : Nat
  R15 : Nat
  Rip : Nat
  EFlags : Nat

/-- What the two functions act on: the `CONTEXT` passed by reference and the process
memory its stack pointer addresses. -/
structure Machine where
  Context : CONTEXT
  mem : Memory

/-- The update `Context.Rsp -= n` of the 64-bit register. -/
def subRsp (Context : CONTEXT) (n : Nat) : CONTEXT :=
  { Context with Rsp := (Context.Rsp + W64 - n % W64) % W64 }

/-! ## `PushToStack` (main.cpp:116-135) -/

/-- The function `PushToStack(Context, value)`: it returns at once when `Context.Rsp & 0x7` is non-zero;
otherwise `Context.Rsp -= 0x8` and the value is stored at the new `Rsp`. -/
def PushToStack (s : Machine) (value : Nat) : Machine :=
  if s.Context.Rsp &&& 0x7 ≠ 0 then
    s
  else
    let Context := subRsp s.Context 0x8
    { Context := Context, mem := write64 s.mem Context.Rsp value }

/-! ## `InitialiseFakeThreadState` (main.cpp:142-248) -/

/-- Modelled from the spec: the declaration of `StackFrame` is not among the sources; the
fields are the ones `InitialiseFakeThreadState` reads, named as it names them.  The spec's
data model gives `totalStackSize` (bytes, unsigned), `returnAddress` (a pointer, 64 bits),
the two flags, and the two unwind-code numbers; the three numbers are taken as 32-bit
`ULONG`s, the type of the loop counter they are compared with. -/
structure StackFrame where
  totalStackSize : Nat
  returnAddress : Nat
  pushRbp : Bool
  pushRbpIndex : Nat
  countOfCodes : Nat
  setsFramePointer : Bool

/-- The fields of a frame fit their C types. -/
def StackFrame.WellTyped (f : StackFrame) : Prop :=
  f.totalStackSize < W32 ∧ f.returnAddress < W64 ∧ f.pushRbpIndex < W32 ∧ f.countOfCodes < W32

instance (f : StackFrame) : Decidable f.WellTyped := by
  unfold StackFrame.WellTyped; infer_instance

/-- The locals of `InitialiseFakeThreadState` together with the machine it mutates.
`calls` is a record kept for the proofs only: every call of `PushToStack` made so far, in
order, as the pair of `Rsp` at the call and the value passed. -/
structure Builder where
  s : Machine
  childSp : Nat
  bPreviousFrameSetUWOP_SET_FPREG : Bool
  calls : List (Nat × Nat)

/-- A call `PushToStack(context, value)` made by the builder. -/
def callPushToStack (b : Builder) (value : Nat) : Builder :=
  { b with s := PushToStack b.s value, calls := b.calls ++ [(b.s.Context.Rsp, value)] }

/-- The difference `stackFrame->countOfCodes - stackFrame->pushRbpIndex`, as the 32-bit unsigned number
the loop counter `ULONG i` is compared with (main.cpp:204-206). -/
def diff (f : StackFrame) : Nat :=
  (f.countOfCodes % W32 + W32 - f.pushRbpIndex % W32) % W32

/-- The loop `for (ULONG i = 0; i < diff; i++) { PushToStack(context, 0x0);
tmpStackSizeCounter += 0x8; }` (main.cpp:206-211) with `n` iterations left; the second
component is `tmpStackSizeCounter`. -/
def pushLoop : Nat → Builder → Nat → Builder × Nat
  | 0, b, tmpStackSizeCounter => (b, tmpStackSizeCounter)
  | n + 1, b, tmpStackSizeCounter => pushLoop n (callPushToStack b 0x0) (tmpStackSizeCounter + 0x8)

/-- The amount `stackFrame->totalStackSize - (tmpStackSizeCounter + 0x8)` of main.cpp:217,
computed in 32-bit unsigned arithmetic (a `ULONG` minus an `int`). -/
def fixupDecrement (f : StackFrame) (tmpStackSizeCounter : Nat) : Nat :=
  (f.totalStackSize % W32 + W32 - (tmpStackSizeCounter + 0x8) % W32) % W32

/-- The statements `context.Rsp -= n; *(PULONG64)(context.Rsp) =
(ULONG64)stackFrame->returnAddress;` (main.cpp:217-219 and 233-235). -/
def writeReturnAddress (s : Machine) (n : Nat) (f : StackFrame) : Machine :=
  let Context := subRsp s.Context n
  { Context := Context, mem := write64 s.mem Context.Rsp f.returnAddress }

/-- The test of main.cpp:189: a fixup is pending and the frame pushes rbp. -/
def takesFixupPath (b : Builder) (f : StackFrame) : Bool :=
  b.bPreviousFrameSetUWOP_SET_FPREG && f.pushRbp

/-- Branch [2.2]-[2.4] of the loop body (main.cpp:204-227). -/
def fixupPath (b : Builder) (f : StackFrame) : Builder :=
  let r := pushLoop (diff f) b 0
  let b2 := callPushToStack r.1 b.childSp
  { b2 with
    s := writeReturnAddress b2.s (fixupDecrement f r.2) f
    bPreviousFrameSetUWOP_SET_FPREG := false }

/-- Branch [3] of the loop body (main.cpp:233-235). -/
def normalPath (b : Builder) (f : StackFrame) : Builder :=
  { b with s := writeReturnAddress b.s f.totalStackSize f }

/-- Step [4] of the loop body (main.cpp:241-246). -/
def recordChildSp (b : Builder) (f : StackFrame) : Builder :=
  if f.setsFramePointer then
    { b with childSp := (b.s.Context.Rsp + 0x8) % W64, bPreviousFrameSetUWOP_SET_FPREG := true }
  else
    b

/-- One iteration of the loop of main.cpp:176-247. -/
def processFrame (b : Builder) (f : StackFrame) : Builder :=
  recordChildSp (if takesFixupPath b f then fixupPath b f else normalPath b f) f

/-- The loop of main.cpp:176-247 over the frames in the order they are visited. -/
def processFrames : List StackFrame → Builder → Builder
  | [], b => b
  | f :: fs, b => processFrames fs (processFrame b f)

/-- The locals at entry (main.cpp:144-145). -/
def Builder.start (s : Machine) : Builder :=
  { s := s, childSp := 0, bPreviousFrameSetUWOP_SET_FPREG := false, calls := [] }

/-- The builder after the frames of `targetCallStack` (outermost first) have been visited
from the last to the first, starting in `b`. -/
def runFrom (b : Builder) (targetCallStack : List StackFrame) : Builder :=
  processFrames targetCallStack.reverse b

/-- The builder right after the sentinel push of main.cpp:149. -/
def afterSentinel (s : Machine) : Builder := callPushToStack (Builder.start s) 0

/-- The run of `InitialiseFakeThreadState(context, targetCallStack)` with its locals: the sentinel
push of main.cpp:149, then the loop over `targetCallStack` backwards. -/
def InitialiseFakeThreadStateRun (s : Machine) (targetCallStack : List StackFrame) : Builder :=
  runFrom (afterSentinel s) targetCallStack

/-- The function `InitialiseFakeThreadState(context, targetCallStack)`: the context and memory it
leaves behind. -/
def InitialiseFakeThreadState (s : Machine) (targetCallStack : List StackFrame) : Machine :=
  (InitialiseFakeThreadStateRun s targetCallStack).s

/-- A context with the given stack pointer and every other register zero. -/
def contextAt (sp : Nat) : CONTEXT :=
  { Rax := 0, Rcx := 0, Rdx := 0, Rbx := 0, Rsp := sp, Rbp := 0, Rsi := 0, Rdi := 0,
    R8 := 0, R9 := 0, R10 := 0, R11 := 0, R12 := 0, R13 := 0, R14 := 0, R15 := 0,
    Rip := 0, EFlags := 0 }

/-- A machine with the given stack pointer, every other register and every byte zero. -/
def machineAt (sp : Nat) : Machine := { Context := contextAt sp, mem := fun _ => 0 }

/-- A frame that neither pushes rbp nor sets the frame pointer. -/
def plainFrame (totalStackSize returnAddress : Nat) : StackFrame :=
  { totalStackSize := totalStackSize, returnAddress := returnAddress, pushRbp := false,
    pushRbpIndex := 0, countOfCodes := 0, setsFramePointer := false }

/-- The frame A of the fixup scenario: size 0x28, sets the frame pointer. -/
def frameA : StackFrame :=
  { totalStackSize := 0x28, returnAddress := 0x7FF6A0001000, pushRbp := false,
    pushRbpIndex := 0, countOfCodes := 2, setsFramePointer := true }

/-- The frame B of the fixup scenario: size 0x30, pushes rbp at code index 1 of 3. -/
def frameB : StackFrame :=
  { totalStackSize := 0x30, returnAddress := 0x7FF6B0002000, pushRbp := true,
    pushRbpIndex := 1, countOfCodes := 3, setsFramePointer := false }

/-- A frame whose whole size is the one slot of its rbp push: size 8, pushes rbp last. -/
def tightFrame : StackFrame :=
  { totalStackSize := 0x8, returnAddress := 0x7FF6C0003000, pushRbp := true,
    pushRbpIndex := 0, countOfCodes := 0, setsFramePointer := false }

/-- A frame that sets the frame pointer and does not push rbp. -/
def setterFrame (totalStackSize returnAddress : Nat) : StackFrame :=
  { totalStackSize := totalStackSize, returnAddress := returnAddress, pushRbp := false,
    pushRbpIndex := 0, countOfCodes := 0, setsFramePointer := true }

/-! ## Predicates on a run -/

/-- What a frame that takes the fixup path needs for its pushes to land inside its own
region: an aligned stack pointer at entry and room for the `diff + 1` pushes. -/
def FixupFits (b : Builder) (f : StackFrame) : Prop :=
  b.s.Context.Rsp % 8 = 0 ∧ 8 * (diff f + 1) ≤ f.totalStackSize ∧ f.totalStackSize < W32

instance (b : Builder) (f : StackFrame) : Decidable (FixupFits b f) := by
  unfold FixupFits; infer_instance

/-- Sum of `totalStackSize` over the frames. -/
def totalSize (frames : List StackFrame) : Nat :=
  (frames.map StackFrame.totalStackSize).sum

/-- Sum of `totalStackSize` over the frames that precede position `i` in the list. -/
def sizeBefore (frames : List StackFrame) (i : Nat) : Nat :=
  totalSize (frames.take i)

/-- Every frame that takes the fixup path in the run from `b` satisfies `FixupFits` when
it is reached.  In `f :: rest` the frame `f` is visited last, in the state
`runFrom b rest`. -/
def FixupsFit (b : Builder) : List StackFrame → Prop
  | [] => True
  | f :: rest =>
    FixupsFit b rest ∧ (takesFixupPath (runFrom b rest) f = true → FixupFits (runFrom b rest) f)

/-- No frame takes the fixup path in the run from `b`. -/
def NoFixup (b : Builder) : List StackFrame → Prop
  | [] => True
  | f :: rest => NoFixup b rest ∧ takesFixupPath (runFrom b rest) f = false

instance FixupsFit.dec (b : Builder) : (frames : List StackFrame) → Decidable (FixupsFit b frames)
  | [] => isTrue trivial
  | f :: rest =>
    have := FixupsFit.dec b rest
    inferInstanceAs (Decidable (FixupsFit b rest ∧
      (takesFixupPath (runFrom b rest) f = true → FixupFits (runFrom b rest) f)))

instance NoFixup.dec (b : Builder) : (frames : List StackFrame) → Decidable (NoFixup b frames)
  | [] => isTrue trivial
  | f :: rest =>
    have := NoFixup.dec b rest
    inferInstanceAs (Decidable (NoFixup b rest ∧ takesFixupPath (runFrom b rest) f = false))

/-- A sequence of `PushToStack` calls on the same context, one per value of the list,
first value first. -/
def pushAll (s : Machine) : List Nat → Machine
  | [] => s
  | v :: vs => pushAll (PushToStack s v) vs

/-- Number of `PushToStack` calls made by the frames that take the fixup path in the run
from `b`: `diff + 1` for each such frame.  In `f :: rest` the frame `f` is visited last,
in the state `runFrom b rest`. -/
def fixupPushes (b : Builder) : List StackFrame → Nat
  | [] => 0
  | f :: rest =>
    fixupPushes b rest + (if takesFixupPath (runFrom b rest) f then diff f + 1 else 0)

/-- Two machines have the same stack pointer and the same memory. -/
def SameStack (s1 s2 : Machine) : Prop :=
  s1.Context.Rsp = s2.Context.Rsp ∧ s1.mem = s2.mem

/-- Two builders agree on the stack pointer, the memory and the locals. -/
def SameRun (b1 b2 : Builder) : Prop :=
  SameStack b1.s b2.s ∧ b1.childSp = b2.childSp ∧
    b1.bPreviousFrameSetUWOP_SET_FPREG = b2.bPreviousFrameSetUWOP_SET_FPREG ∧ b1.calls = b2.calls

/-- Every register of `c` other than `Rsp` has the value it has in `c0`. -/
def SameOtherRegisters (c c0 : CONTEXT) : Prop :=
  { c with Rsp := c0.Rsp } = c0

/-- The stack pointer of the builder and the stack pointer at every call of `PushToStack`
made so far are multiples of 8. -/
def AlignedRun (b : Builder) : Prop :=
  b.s.Context.Rsp % 8 = 0 ∧ ∀ c ∈ b.calls, c.1 % 8 = 0

/-- No frame of `fs`, visited in this order from `b`, takes the fixup path. -/
def NoneConsumes : Builder → List StackFrame → Prop
  | _, [] => True
  | b, f :: fs => takesFixupPath b f = false ∧ NoneConsumes (processFrame b f) fs

instance NoneConsumes.dec : (b : Builder) → (fs : List StackFrame) → Decidable (NoneConsumes b fs)
  | _, [] => isTrue trivial
  | b, f :: fs =>
    have := NoneConsumes.dec (processFrame b f) fs
    inferInstanceAs (Decidable (takesFixupPath b f = false ∧ NoneConsumes (processFrame b f) fs))

/-- The frame with its `pushRbp` and `setsFramePointer` flags cleared. -/
def clearFlags (f : StackFrame) : StackFrame :=
  { f with pushRbp := false, setsFramePointer := false }

/-- Every frame that takes the fixup path in the run from `b` has room for its pushes:
`8 * (diff + 1) ≤ totalStackSize`, with `totalStackSize` a 32-bit number.  In `f :: rest`
the frame `f` is visited last, in the state `runFrom b rest`. -/
def FixupsRoom (b : Builder) : List StackFrame → Prop
  | [] => True
  | f :: rest =>
    FixupsRoom b rest ∧ (takesFixupPath (runFrom b rest) f = true →
      8 * (diff f + 1) ≤ f.totalStackSize ∧ f.totalStackSize < W32)

instance FixupsRoom.dec (b : Builder) : (frames : List StackFrame) → Decidable (FixupsRoom b frames)
  | [] => isTrue trivial
  | f :: rest =>
    have := FixupsRoom.dec b rest
    inferInstanceAs (Decidable (FixupsRoom b rest ∧ (takesFixupPath (runFrom b rest) f = true →
      8 * (diff f + 1) ≤ f.totalStackSize ∧ f.totalStackSize < W32)))

/-! # Proofs -/


/-! ## Words and memory: basic facts -/

theorem W64_eq : W64 = 18446744073709551616 := by norm_num [W64]

theorem W32_eq : W32 = 4294967296 := by norm_num [W32]

theorem and_seven (n : Nat) : n &&& 0x7 = n % 8 := Nat.and_pow_two_sub_one_eq_mod n 3

theorem offsetFrom_add (addr i : Nat) (hi : i < W64) :
    offsetFrom addr ((addr + i) % W64) = i := by
  simp only [offsetFrom, W64_eq] at *
  omega

theorem write64_far (mem : Memory) (addr v x : Nat) (h : 8 ≤ offsetFrom addr x) :
    write64 mem addr v x = mem x := by
  have : ¬ (x < W64 ∧ offsetFrom addr x < 8) := by omega
  simp [write64, this]

theorem byteAt_write64_same (mem : Memory) (addr v i : Nat) (hi : i < 8) :
    byteAt (write64 mem addr v) addr i = v / 256 ^ i % 256 := by
  have h1 : (addr + i) % W64 < W64 := Nat.mod_lt _ (by norm_num [W64])
  have h2 : offsetFrom addr ((addr + i) % W64) = i :=
    offsetFrom_add addr i (by simp only [W64_eq]; omega)
  simp [byteAt, write64, h1, h2, hi]

theorem read64_write64_same (mem : Memory) (addr v : Nat) :
    read64 (write64 mem addr v) addr = v % W64 := by
  simp only [read64, byteAt_write64_same, (by decide : (0:Nat) < 8), (by decide : (1:Nat) < 8),
    (by decide : (2:Nat) < 8), (by decide : (3:Nat) < 8), (by decide : (4:Nat) < 8),
    (by decide : (5:Nat) < 8), (by decide : (6:Nat) < 8), (by decide : (7:Nat) < 8), W64_eq]
  norm_num
  omega

theorem read64_congr (m1 m2 : Memory) (a1 a2 : Nat)
    (h : ∀ i, i < 8 → m1 ((a1 + i) % W64) = m2 ((a2 + i) % W64)) :
    read64 m1 a1 = read64 m2 a2 := by
  simp only [read64, byteAt]
  rw [h 0 (by decide), h 1 (by decide), h 2 (by decide), h 3 (by decide), h 4 (by decide),
    h 5 (by decide), h 6 (by decide), h 7 (by decide)]

/-! ## `PushToStack`: basic facts -/

theorem subRsp_eight (c : CONTEXT) : (subRsp c 0x8).Rsp = (c.Rsp + W64 - 8) % W64 := by
  simp [subRsp, W64_eq]

theorem PushToStack_aligned (s : Machine) (v : Nat) (h : s.Context.Rsp % 8 = 0) :
    PushToStack s v =
      { Context := subRsp s.Context 0x8, mem := write64 s.mem (subRsp s.Context 0x8).Rsp v } := by
  have h7 : s.Context.Rsp &&& 0x7 = 0 := by rw [and_seven]; exact h
  simp [PushToStack, h7]

theorem PushToStack_misaligned (s : Machine) (v : Nat) (h : s.Context.Rsp % 8 ≠ 0) :
    PushToStack s v = s := by
  have h7 : s.Context.Rsp &&& 0x7 ≠ 0 := by rw [and_seven]; exact h
  simp [PushToStack, h7]


/-! ## The builder: one call, the placeholder loop, one frame -/

theorem callPushToStack_aligned_rsp (b : Builder) (v : Nat) (h : b.s.Context.Rsp % 8 = 0) :
    (callPushToStack b v).s.Context.Rsp = (b.s.Context.Rsp + W64 - 8) % W64 := by
  simp [callPushToStack, PushToStack_aligned _ _ h, subRsp_eight]

theorem callPushToStack_aligned_mem (b : Builder) (v : Nat) (h : b.s.Context.Rsp % 8 = 0) :
    (callPushToStack b v).s.mem = write64 b.s.mem ((b.s.Context.Rsp + W64 - 8) % W64) v := by
  simp [callPushToStack, PushToStack_aligned _ _ h, subRsp_eight]

theorem callPushToStack_childSp (b : Builder) (v : Nat) :
    (callPushToStack b v).childSp = b.childSp := rfl

theorem callPushToStack_flag (b : Builder) (v : Nat) :
    (callPushToStack b v).bPreviousFrameSetUWOP_SET_FPREG = b.bPreviousFrameSetUWOP_SET_FPREG :=
  rfl

/-- For well-typed numbers with `pushRbpIndex ≤ countOfCodes` the 32-bit difference is the
plain one. -/
theorem diff_eq_sub (f : StackFrame) (h : f.pushRbpIndex ≤ f.countOfCodes)
    (hc : f.countOfCodes < W32) : diff f = f.countOfCodes - f.pushRbpIndex := by
  simp only [diff, W32_eq] at *
  omega

/-- From an aligned stack pointer the placeholder loop counts eight bytes per round,
keeps the pointer aligned, lowers it by eight bytes per round, and changes no byte
outside the bytes it has claimed. -/
theorem pushLoop_aligned (n : Nat) : ∀ (b : Builder) (tmp : Nat), b.s.Context.Rsp % 8 = 0 →
    (pushLoop n b tmp).2 = tmp + 8 * n ∧
    (pushLoop n b tmp).1.s.Context.Rsp % 8 = 0 ∧
    (pushLoop n b tmp).1.s.Context.Rsp % W64 = (b.s.Context.Rsp + W64 - (8 * n) % W64) % W64 ∧
    (∀ x, 8 * n ≤ offsetFrom (pushLoop n b tmp).1.s.Context.Rsp x →
      (pushLoop n b tmp).1.s.mem x = b.s.mem x) := by
  induction n with
  | zero =>
    intro b tmp hal
    refine ⟨by simp [pushLoop], by simpa [pushLoop] using hal, ?_, fun _ _ => rfl⟩
    simp only [pushLoop, W64_eq]
    omega
  | succ n ih =>
    intro b tmp hal
    have hr := callPushToStack_aligned_rsp b 0 hal
    have hm := callPushToStack_aligned_mem b 0 hal
    have hal1 : (callPushToStack b 0).s.Context.Rsp % 8 = 0 := by
      rw [hr]; simp only [W64_eq]; omega
    obtain ⟨h1, h2, h3, h4⟩ := ih (callPushToStack b 0) (tmp + 8) hal1
    simp only [pushLoop]
    refine ⟨by omega, h2, ?_, ?_⟩
    · rw [h3, hr]; simp only [W64_eq]; omega
    · intro x hx
      have hx1 : 8 * n ≤ offsetFrom (pushLoop n (callPushToStack b 0) (tmp + 8)).1.s.Context.Rsp x := by
        omega
      rw [h4 x hx1, hm]
      apply write64_far
      simp only [offsetFrom, W64_eq] at *
      omega


theorem recordChildSp_s (b : Builder) (f : StackFrame) : (recordChildSp b f).s = b.s := by
  unfold recordChildSp
  split <;> rfl

theorem processFrame_s (b : Builder) (f : StackFrame) :
    (processFrame b f).s =
      if takesFixupPath b f then (fixupPath b f).s else (normalPath b f).s := by
  unfold processFrame
  rw [recordChildSp_s]
  split <;> rfl

theorem writeReturnAddress_rsp (s : Machine) (n : Nat) (f : StackFrame) :
    (writeReturnAddress s n f).Context.Rsp = (s.Context.Rsp + W64 - n % W64) % W64 := rfl

theorem writeReturnAddress_mem (s : Machine) (n : Nat) (f : StackFrame) :
    (writeReturnAddress s n f).mem =
      write64 s.mem ((s.Context.Rsp + W64 - n % W64) % W64) f.returnAddress := rfl

theorem writeReturnAddress_read (s : Machine) (n : Nat) (f : StackFrame) :
    read64 (writeReturnAddress s n f).mem (writeReturnAddress s n f).Context.Rsp =
      f.returnAddress % W64 := by
  rw [writeReturnAddress_mem, writeReturnAddress_rsp, read64_write64_same]

/-- A frame's return address is the last thing its iteration writes, at the stack pointer
it leaves. -/
theorem processFrame_read (b : Builder) (f : StackFrame) :
    read64 (processFrame b f).s.mem (processFrame b f).s.Context.Rsp = f.returnAddress % W64 := by
  rw [processFrame_s]
  split
  · exact writeReturnAddress_read _ _ f
  · exact writeReturnAddress_read _ _ f

/-- The fixup path under `FixupFits`: the stack pointer ends `totalStackSize` lower and no
byte outside the frame's own region is changed. -/
theorem fixupPath_fits (b : Builder) (f : StackFrame) (h : FixupFits b f) :
    (fixupPath b f).s.Context.Rsp = (b.s.Context.Rsp + W64 - f.totalStackSize % W64) % W64 ∧
    (∀ x, f.totalStackSize ≤ offsetFrom (fixupPath b f).s.Context.Rsp x →
      (fixupPath b f).s.mem x = b.s.mem x) := by
  obtain ⟨hal, hfit, hlt⟩ := h
  obtain ⟨h1, h2, h3, h4⟩ := pushLoop_aligned (diff f) b 0 hal
  have hr := callPushToStack_aligned_rsp (pushLoop (diff f) b 0).1 b.childSp h2
  have hm := callPushToStack_aligned_mem (pushLoop (diff f) b 0).1 b.childSp h2
  have hdec : fixupDecrement f (pushLoop (diff f) b 0).2 = f.totalStackSize - 8 * (diff f + 1) := by
    rw [h1]
    simp only [fixupDecrement, W32_eq] at *
    omega
  have hrsp : (fixupPath b f).s.Context.Rsp =
      (b.s.Context.Rsp + W64 - f.totalStackSize % W64) % W64 := by
    simp only [fixupPath, writeReturnAddress_rsp, hr, hdec]
    simp only [W64_eq, W32_eq] at *
    omega
  refine ⟨hrsp, ?_⟩
  intro x hx
  rw [hrsp] at hx
  simp only [fixupPath, writeReturnAddress_mem, hr, hm, hdec]
  rw [write64_far, write64_far, h4]
  · simp only [offsetFrom, W64_eq, W32_eq] at *
    omega
  · simp only [offsetFrom, W64_eq, W32_eq] at *
    omega
  · simp only [offsetFrom, W64_eq, W32_eq] at *
    omega

/-- Each iteration lowers the stack pointer by the frame's `totalStackSize`. -/
theorem processFrame_rsp (b : Builder) (f : StackFrame)
    (h : takesFixupPath b f = true → FixupFits b f) :
    (processFrame b f).s.Context.Rsp =
      (b.s.Context.Rsp + W64 - f.totalStackSize % W64) % W64 := by
  rw [processFrame_s]
  split
  · next ht => exact (fixupPath_fits b f (h ht)).1
  · rfl

/-- Each iteration changes no byte outside the region it claims, when that region has
room for the return address. -/
theorem processFrame_mem_far (b : Builder) (f : StackFrame)
    (h : takesFixupPath b f = true → FixupFits b f) (h8 : 8 ≤ f.totalStackSize) (x : Nat)
    (hx : f.totalStackSize ≤ offsetFrom (processFrame b f).s.Context.Rsp x) :
    (processFrame b f).s.mem x = b.s.mem x := by
  rw [processFrame_s] at *
  split
  · next ht =>
    rw [if_pos ht] at hx
    exact (fixupPath_fits b f (h ht)).2 x hx
  · next ht =>
    rw [if_neg ht] at hx
    simp only [normalPath, writeReturnAddress_rsp] at hx
    simp only [normalPath, writeReturnAddress_mem]
    exact write64_far _ _ _ _ (by omega)


theorem processFrames_append (fs gs : List StackFrame) : ∀ b : Builder,
    processFrames (fs ++ gs) b = processFrames gs (processFrames fs b) := by
  induction fs with
  | nil => intro b; rfl
  | cons f fs ih => intro b; exact ih (processFrame b f)

theorem runFrom_nil (b : Builder) : runFrom b [] = b := rfl

theorem runFrom_cons (b : Builder) (f : StackFrame) (rest : List StackFrame) :
    runFrom b (f :: rest) = processFrame (runFrom b rest) f := by
  simp only [runFrom, List.reverse_cons, processFrames_append, processFrames]

theorem NoFixup.fixupsFit (b : Builder) (frames : List StackFrame) (h : NoFixup b frames) :
    FixupsFit b frames := by
  induction frames with
  | nil => trivial
  | cons f rest ih =>
    obtain ⟨h1, h2⟩ := h
    exact ⟨ih h1, fun ht => by rw [h2] at ht; cases ht⟩

theorem totalSize_cons (f : StackFrame) (rest : List StackFrame) :
    totalSize (f :: rest) = f.totalStackSize + totalSize rest := by
  simp [totalSize]

theorem sizeBefore_zero (frames : List StackFrame) : sizeBefore frames 0 = 0 := by
  simp [sizeBefore, totalSize]

theorem sizeBefore_succ (f : StackFrame) (rest : List StackFrame) (i : Nat) :
    sizeBefore (f :: rest) (i + 1) = f.totalStackSize + sizeBefore rest i := by
  simp [sizeBefore, totalSize]

theorem sizeBefore_length (frames : List StackFrame) :
    sizeBefore frames frames.length = totalSize frames := by
  simp [sizeBefore]

theorem sizeBefore_add_le (frames : List StackFrame) : ∀ (i : Nat) (hi : i < frames.length),
    sizeBefore frames i + frames[i].totalStackSize ≤ totalSize frames := by
  induction frames with
  | nil => intro i hi; cases hi
  | cons f rest ih =>
    intro i hi
    cases i with
    | zero => simp [sizeBefore_zero, totalSize_cons]
    | succ j =>
      have := ih j (by simpa using hi)
      simp only [sizeBefore_succ, totalSize_cons, List.getElem_cons_succ]
      omega

/-- The stack pointer after a run in which every fixup fits: the start pointer lowered by
the sum of the frame sizes. -/
theorem runFrom_rsp (b : Builder) (frames : List StackFrame) (hfit : FixupsFit b frames) :
    (runFrom b frames).s.Context.Rsp % W64 =
      (b.s.Context.Rsp + W64 - totalSize frames % W64) % W64 := by
  induction frames with
  | nil => simp [runFrom_nil, totalSize, W64_eq]
  | cons f rest ih =>
    obtain ⟨h1, h2⟩ := hfit
    have ih1 := ih h1
    rw [runFrom_cons, processFrame_rsp _ _ h2, totalSize_cons]
    simp only [W64_eq] at *
    omega

/-- Layout of a run in which every fixup fits and every frame has room for its return
address: bytes at or above the start pointer are untouched, and frame `i` has its return
address at the final stack pointer plus the sizes of the frames before it. -/
theorem runFrom_layout (b : Builder) (frames : List StackFrame) (hfit : FixupsFit b frames)
    (h8 : ∀ f ∈ frames, 8 ≤ f.totalStackSize) (hw : totalSize frames ≤ W64) :
    (∀ x, totalSize frames ≤ offsetFrom (runFrom b frames).s.Context.Rsp x →
      (runFrom b frames).s.mem x = b.s.mem x) ∧
    (∀ (i : Nat) (hi : i < frames.length),
      read64 (runFrom b frames).s.mem ((runFrom b frames).s.Context.Rsp + sizeBefore frames i) =
        frames[i].returnAddress % W64) := by
  induction frames with
  | nil => exact ⟨fun _ _ => rfl, fun i hi => by cases hi⟩
  | cons f rest ih =>
    obtain ⟨h1, h2⟩ := hfit
    have hf8 : 8 ≤ f.totalStackSize := h8 f (List.mem_cons_self _ _)
    have hrest8 : ∀ g ∈ rest, 8 ≤ g.totalStackSize := fun g hg => h8 g (List.mem_cons_of_mem _ hg)
    rw [totalSize_cons] at hw
    obtain ⟨ihm, ihr⟩ := ih h1 hrest8 (by omega)
    have hrsp := processFrame_rsp _ _ h2
    have hrun := runFrom_rsp b rest h1
    refine ⟨?_, ?_⟩
    · intro x hx
      rw [runFrom_cons] at hx ⊢
      rw [totalSize_cons] at hx
      rw [processFrame_mem_far _ _ h2 hf8 x (by omega)]
      apply ihm
      rw [hrsp] at hx
      simp only [offsetFrom, W64_eq] at *
      omega
    · intro i hi
      cases i with
      | zero =>
        simp only [sizeBefore_zero, Nat.add_zero, List.getElem_cons_zero, runFrom_cons]
        exact processFrame_read _ f
      | succ j =>
        have hj : j < rest.length := by simpa using hi
        have hle := sizeBefore_add_le rest j hj
        have hj8 := hrest8 rest[j] (List.getElem_mem hj)
        simp only [List.getElem_cons_succ, sizeBefore_succ]
        rw [← ihr j hj]
        apply read64_congr
        intro k hk
        have haddr : ((runFrom b (f :: rest)).s.Context.Rsp +
            (f.totalStackSize + sizeBefore rest j) + k) % W64 =
            ((runFrom b rest).s.Context.Rsp + sizeBefore rest j + k) % W64 := by
          rw [runFrom_cons, hrsp]
          simp only [W64_eq] at *
          omega
        rw [haddr, runFrom_cons]
        apply processFrame_mem_far _ _ h2 hf8
        rw [hrsp]
        simp only [offsetFrom, W64_eq] at *
        omega


/-! ## The whole run -/

theorem processFrame_rsp_lt (b : Builder) (f : StackFrame) :
    (processFrame b f).s.Context.Rsp < W64 := by
  rw [processFrame_s]
  split
  · exact Nat.mod_lt _ (by norm_num [W64])
  · exact Nat.mod_lt _ (by norm_num [W64])

theorem runFrom_rsp_lt (b : Builder) (frames : List StackFrame) (h : b.s.Context.Rsp < W64) :
    (runFrom b frames).s.Context.Rsp < W64 := by
  cases frames with
  | nil => exact h
  | cons f rest => rw [runFrom_cons]; exact processFrame_rsp_lt _ f

theorem afterSentinel_rsp (s : Machine) (h : s.Context.Rsp % 8 = 0) :
    (afterSentinel s).s.Context.Rsp = (s.Context.Rsp + W64 - 8) % W64 :=
  callPushToStack_aligned_rsp (Builder.start s) 0 h

theorem afterSentinel_mem (s : Machine) (h : s.Context.Rsp % 8 = 0) :
    (afterSentinel s).s.mem = write64 s.mem ((s.Context.Rsp + W64 - 8) % W64) 0 :=
  callPushToStack_aligned_mem (Builder.start s) 0 h

/-- From an aligned stack pointer the sentinel survives the run and lies just above the
frames, when every fixup fits, every frame has room for its return address and the
frames and the sentinel fit the address space. -/
theorem sentinel_kept (s : Machine) (frames : List StackFrame) (hsp : s.Context.Rsp % 8 = 0)
    (hfit : FixupsFit (afterSentinel s) frames)
    (h8 : ∀ f ∈ frames, 8 ≤ f.totalStackSize) (hw : totalSize frames + 8 ≤ W64) :
    ((InitialiseFakeThreadState s frames).Context.Rsp + totalSize frames) % W64 =
      (s.Context.Rsp + W64 - 8) % W64 ∧
    read64 (InitialiseFakeThreadState s frames).mem
      ((InitialiseFakeThreadState s frames).Context.Rsp + totalSize frames) = 0 := by
  have hr := afterSentinel_rsp s hsp
  have hm := afterSentinel_mem s hsp
  have hrun := runFrom_rsp _ frames hfit
  obtain ⟨hfar, -⟩ := runFrom_layout _ frames hfit h8 (by omega)
  simp only [InitialiseFakeThreadState, InitialiseFakeThreadStateRun]
  rw [hr] at hrun
  refine ⟨by simp only [W64_eq] at *; omega, ?_⟩
  have h0 : read64 (afterSentinel s).s.mem ((s.Context.Rsp + W64 - 8) % W64) = 0 := by
    rw [hm, read64_write64_same]; rfl
  refine Eq.trans (read64_congr _ _ _ _ ?_) h0
  intro k hk
  have haddr : ((runFrom (afterSentinel s) frames).s.Context.Rsp +
      totalSize frames + k) % W64 = ((s.Context.Rsp + W64 - 8) % W64 + k) % W64 := by
    simp only [W64_eq] at *; omega
  rw [haddr]
  apply hfar
  simp only [offsetFrom, W64_eq] at *
  omega

/-- C1: when `Rsp & 7 == 0`, `PushToStack` leaves the stack pointer at `Rsp - 8` modulo
`2 ^ 64` and the eight bytes at the new stack pointer hold the 64-bit value pushed. -/
theorem PushToStack_aligned_pushes (s : Machine) (v : Nat) (hsp : s.Context.Rsp &&& 0x7 = 0)
    (hv : v < 2 ^ 64) :
    ((PushToStack s v).Context.Rsp : Int) = ((s.Context.Rsp : Int) - 8) % 2 ^ 64 ∧
    read64 (PushToStack s v).mem (PushToStack s v).Context.Rsp = v := by
  have h8 : s.Context.Rsp % 8 = 0 := by rw [← and_seven]; exact hsp
  rw [PushToStack_aligned s v h8]
  refine ⟨?_, ?_⟩
  · simp only [subRsp_eight, W64_eq]
    omega
  · simp only [read64_write64_same]
    exact Nat.mod_eq_of_lt (by simpa [W64] using hv)

theorem PushToStack_aligned_pushes_witness :
    (machineAt 0x1000).Context.Rsp &&& 0x7 = 0 ∧ 0x1234 < 2 ^ 64 ∧
    ((PushToStack (machineAt 0x1000) 0x1234).Context.Rsp : Int) =
      (((machineAt 0x1000).Context.Rsp : Int) - 8) % 2 ^ 64 ∧
    read64 (PushToStack (machineAt 0x1000) 0x1234).mem
      (PushToStack (machineAt 0x1000) 0x1234).Context.Rsp = 0x1234 :=
  ⟨by decide, by decide, PushToStack_aligned_pushes (machineAt 0x1000) 0x1234 (by decide) (by decide)⟩

/-- C2: when `Rsp & 7 != 0`, `PushToStack` returns the context and the memory exactly as
they were. -/
theorem PushToStack_misaligned_noop (s : Machine) (v : Nat) (hsp : s.Context.Rsp &&& 0x7 ≠ 0) :
    PushToStack s v = s := by
  simp [PushToStack, hsp]

theorem PushToStack_misaligned_noop_witness :
    (machineAt 0x1004).Context.Rsp &&& 0x7 ≠ 0 ∧
    PushToStack (machineAt 0x1004) 0x1234 = machineAt 0x1004 :=
  ⟨by decide, PushToStack_misaligned_noop (machineAt 0x1004) 0x1234 (by decide)⟩

/-- C3: from a stack pointer that is a multiple of 8, when no frame takes the fixup path,
the final stack pointer is the initial one minus 8 minus the sum of `totalStackSize` over
all frames, modulo `2 ^ 64`. -/
theorem final_rsp_no_fixup (s : Machine) (frames : List StackFrame)
    (hsp : s.Context.Rsp % 8 = 0)
    (hno : NoFixup (afterSentinel s) frames) :
    ((InitialiseFakeThreadState s frames).Context.Rsp : Int) =
      ((s.Context.Rsp : Int) - 8 - (totalSize frames : Int)) % 2 ^ 64 := by
  have hr := afterSentinel_rsp s hsp
  have hrun := runFrom_rsp _ frames (NoFixup.fixupsFit _ _ hno)
  have hlt := runFrom_rsp_lt (afterSentinel s) frames
    (by rw [hr]; exact Nat.mod_lt _ (by norm_num [W64]))
  rw [hr] at hrun
  simp only [InitialiseFakeThreadState, InitialiseFakeThreadStateRun]
  simp only [W64_eq] at *
  omega

theorem final_rsp_no_fixup_witness :
    (machineAt 0x10000).Context.Rsp % 8 = 0 ∧
    NoFixup (afterSentinel (machineAt 0x10000))
      [plainFrame 0x20 0x1000, plainFrame 0x28 0x2000, plainFrame 0x30 0x3000] ∧
    ((InitialiseFakeThreadState (machineAt 0x10000)
      [plainFrame 0x20 0x1000, plainFrame 0x28 0x2000, plainFrame 0x30 0x3000]).Context.Rsp : Int) =
      (((machineAt 0x10000).Context.Rsp : Int) - 8 -
        (totalSize [plainFrame 0x20 0x1000, plainFrame 0x28 0x2000, plainFrame 0x30 0x3000] : Int))
        % 2 ^ 64 :=
  ⟨by decide, by decide, final_rsp_no_fixup (machineAt 0x10000) _ (by decide) (by decide)⟩


/-- The claim of C4 fails when an outer frame is smaller than a return address: here the
outer frame has size 0, so its return address lands on the inner frame's. -/
theorem return_addresses_counterexample :
    NoFixup (afterSentinel (machineAt 0x10000))
      [plainFrame 0 0x1000, plainFrame 0x20 0x2000] ∧
    read64 (InitialiseFakeThreadState (machineAt 0x10000)
        [plainFrame 0 0x1000, plainFrame 0x20 0x2000]).mem
      ((InitialiseFakeThreadState (machineAt 0x10000)
        [plainFrame 0 0x1000, plainFrame 0x20 0x2000]).Context.Rsp +
        sizeBefore [plainFrame 0 0x1000, plainFrame 0x20 0x2000] 1) ≠
      (plainFrame 0x20 0x2000).returnAddress := by
  decide

/-- C4 (amended): when no frame takes the fixup path, every frame's `totalStackSize` is
at least 8 and the sizes add up to at most `2 ^ 64`, the return address of frame `i` is
read back at the final stack pointer plus the sizes of the frames before it. -/
theorem return_addresses_at_offsets (s : Machine) (frames : List StackFrame)
    (hno : NoFixup (afterSentinel s) frames)
    (h8 : ∀ f ∈ frames, 8 ≤ f.totalStackSize) (hw : totalSize frames ≤ 2 ^ 64)
    (hra : ∀ f ∈ frames, f.returnAddress < 2 ^ 64) :
    ∀ (i : Nat) (hi : i < frames.length),
      read64 (InitialiseFakeThreadState s frames).mem
        ((InitialiseFakeThreadState s frames).Context.Rsp + sizeBefore frames i) =
        frames[i].returnAddress := by
  intro i hi
  obtain ⟨-, hread⟩ := runFrom_layout _ frames (NoFixup.fixupsFit _ _ hno) h8 (by simpa [W64] using hw)
  have h := hread i hi
  have hlt : frames[i].returnAddress < W64 := by simpa [W64] using hra _ (List.getElem_mem hi)
  rw [Nat.mod_eq_of_lt hlt] at h
  exact h

theorem return_addresses_at_offsets_witness :
    NoFixup (afterSentinel (machineAt 0x10000))
      [plainFrame 0x20 0x1000, plainFrame 0x28 0x2000, plainFrame 0x30 0x3000] ∧
    (∀ f ∈ [plainFrame 0x20 0x1000, plainFrame 0x28 0x2000, plainFrame 0x30 0x3000],
      8 ≤ f.totalStackSize) ∧
    totalSize [plainFrame 0x20 0x1000, plainFrame 0x28 0x2000, plainFrame 0x30 0x3000] ≤ 2 ^ 64 ∧
    (∀ f ∈ [plainFrame 0x20 0x1000, plainFrame 0x28 0x2000, plainFrame 0x30 0x3000],
      f.returnAddress < 2 ^ 64) ∧
    ∀ (i : Nat) (hi : i < [plainFrame 0x20 0x1000, plainFrame 0x28 0x2000,
        plainFrame 0x30 0x3000].length),
      read64 (InitialiseFakeThreadState (machineAt 0x10000)
          [plainFrame 0x20 0x1000, plainFrame 0x28 0x2000, plainFrame 0x30 0x3000]).mem
        ((InitialiseFakeThreadState (machineAt 0x10000)
          [plainFrame 0x20 0x1000, plainFrame 0x28 0x2000, plainFrame 0x30 0x3000]).Context.Rsp +
          sizeBefore [plainFrame 0x20 0x1000, plainFrame 0x28 0x2000, plainFrame 0x30 0x3000] i) =
        [plainFrame 0x20 0x1000, plainFrame 0x28 0x2000, plainFrame 0x30 0x3000][i].returnAddress :=
  ⟨by decide, by decide, by decide, by decide,
    return_addresses_at_offsets (machineAt 0x10000) _ (by decide) (by decide) (by decide)
      (by decide)⟩


theorem takesFixupPath_of_not_pushRbp (b : Builder) (f : StackFrame) (h : f.pushRbp = false) :
    takesFixupPath b f = false := by
  simp [takesFixupPath, h]

/-- The reads claimed by C5 are not what the code leaves: at the final stack pointer plus
0x20 lies the return address of the middle frame, 0x2000, not 0x3000. -/
theorem baseline_counterexample :
    (machineAt 0x10000).Context.Rsp % 8 = 0 ∧
    ¬ (read64 (InitialiseFakeThreadState (machineAt 0x10000)
          [plainFrame 0x20 0x1000, plainFrame 0x20 0x2000, plainFrame 0x20 0x3000]).mem
        ((InitialiseFakeThreadState (machineAt 0x10000)
          [plainFrame 0x20 0x1000, plainFrame 0x20 0x2000, plainFrame 0x20 0x3000]).Context.Rsp
          + 0x20) = 0x3000 ∧
      read64 (InitialiseFakeThreadState (machineAt 0x10000)
          [plainFrame 0x20 0x1000, plainFrame 0x20 0x2000, plainFrame 0x20 0x3000]).mem
        ((InitialiseFakeThreadState (machineAt 0x10000)
          [plainFrame 0x20 0x1000, plainFrame 0x20 0x2000, plainFrame 0x20 0x3000]).Context.Rsp
          + 0x40) = 0x2000 ∧
      read64 (InitialiseFakeThreadState (machineAt 0x10000)
          [plainFrame 0x20 0x1000, plainFrame 0x20 0x2000, plainFrame 0x20 0x3000]).mem
        ((InitialiseFakeThreadState (machineAt 0x10000)
          [plainFrame 0x20 0x1000, plainFrame 0x20 0x2000, plainFrame 0x20 0x3000]).Context.Rsp
          + 0x60) = 0x1000 ∧
      read64 (InitialiseFakeThreadState (machineAt 0x10000)
          [plainFrame 0x20 0x1000, plainFrame 0x20 0x2000, plainFrame 0x20 0x3000]).mem
        ((InitialiseFakeThreadState (machineAt 0x10000)
          [plainFrame 0x20 0x1000, plainFrame 0x20 0x2000, plainFrame 0x20 0x3000]).Context.Rsp
          + 0x80) = 0) := by
  decide

/-- C5 (amended): for three frames of size 0x20 without fixup flags and with return
addresses 0x1000, 0x2000, 0x3000 (outer to inner), built from an 8-aligned stack pointer,
the final stack pointer holds 0x1000, 0x20 above it lies 0x2000, 0x40 above it 0x3000, and
0x60 above it the sentinel 0. -/
theorem baseline_layout (s : Machine) (f1 f2 f3 : StackFrame) (hsp : s.Context.Rsp % 8 = 0)
    (h1 : f1.totalStackSize = 0x20 ∧ f1.returnAddress = 0x1000 ∧ f1.pushRbp = false ∧
      f1.setsFramePointer = false)
    (h2 : f2.totalStackSize = 0x20 ∧ f2.returnAddress = 0x2000 ∧ f2.pushRbp = false ∧
      f2.setsFramePointer = false)
    (h3 : f3.totalStackSize = 0x20 ∧ f3.returnAddress = 0x3000 ∧ f3.pushRbp = false ∧
      f3.setsFramePointer = false) :
    read64 (InitialiseFakeThreadState s [f1, f2, f3]).mem
      (InitialiseFakeThreadState s [f1, f2, f3]).Context.Rsp = 0x1000 ∧
    read64 (InitialiseFakeThreadState s [f1, f2, f3]).mem
      ((InitialiseFakeThreadState s [f1, f2, f3]).Context.Rsp + 0x20) = 0x2000 ∧
    read64 (InitialiseFakeThreadState s [f1, f2, f3]).mem
      ((InitialiseFakeThreadState s [f1, f2, f3]).Context.Rsp + 0x40) = 0x3000 ∧
    read64 (InitialiseFakeThreadState s [f1, f2, f3]).mem
      ((InitialiseFakeThreadState s [f1, f2, f3]).Context.Rsp + 0x60) = 0 := by
  obtain ⟨t1, r1, p1, -⟩ := h1
  obtain ⟨t2, r2, p2, -⟩ := h2
  obtain ⟨t3, r3, p3, -⟩ := h3
  have hno : NoFixup (afterSentinel s) [f1, f2, f3] :=
    ⟨⟨⟨trivial, takesFixupPath_of_not_pushRbp _ _ p3⟩, takesFixupPath_of_not_pushRbp _ _ p2⟩,
      takesFixupPath_of_not_pushRbp _ _ p1⟩
  have hfit := NoFixup.fixupsFit _ _ hno
  have h8 : ∀ f ∈ [f1, f2, f3], 8 ≤ f.totalStackSize := by
    intro f hf
    simp only [List.mem_cons, List.mem_singleton, List.not_mem_nil, or_false] at hf
    rcases hf with rfl | rfl | rfl <;> omega
  have htot : totalSize [f1, f2, f3] = 0x60 := by simp [totalSize, t1, t2, t3]
  obtain ⟨-, hread⟩ := runFrom_layout _ [f1, f2, f3] hfit h8 (by rw [htot]; norm_num [W64])
  obtain ⟨-, hsent⟩ := sentinel_kept s [f1, f2, f3] hsp hfit h8 (by rw [htot]; norm_num [W64])
  have e0 := hread 0 (by simp)
  have e1 := hread 1 (by simp)
  have e2 := hread 2 (by simp)
  rw [htot] at hsent
  simp only [sizeBefore, totalSize, List.take, List.map, List.sum_cons, List.sum_nil,
    List.getElem_cons_zero, List.getElem_cons_succ, t1, t2, r1, r2, r3, W64_eq,
    Nat.add_zero] at e0 e1 e2
  exact ⟨e0, e1, e2, hsent⟩

theorem baseline_layout_witness :
    (machineAt 0x10000).Context.Rsp % 8 = 0 ∧
    read64 (InitialiseFakeThreadState (machineAt 0x10000)
        [plainFrame 0x20 0x1000, plainFrame 0x20 0x2000, plainFrame 0x20 0x3000]).mem
      (InitialiseFakeThreadState (machineAt 0x10000)
        [plainFrame 0x20 0x1000, plainFrame 0x20 0x2000, plainFrame 0x20 0x3000]).Context.Rsp
      = 0x1000 ∧
    read64 (InitialiseFakeThreadState (machineAt 0x10000)
        [plainFrame 0x20 0x1000, plainFrame 0x20 0x2000, plainFrame 0x20 0x3000]).mem
      ((InitialiseFakeThreadState (machineAt 0x10000)
        [plainFrame 0x20 0x1000, plainFrame 0x20 0x2000, plainFrame 0x20 0x3000]).Context.Rsp
        + 0x20) = 0x2000 ∧
    read64 (InitialiseFakeThreadState (machineAt 0x10000)
        [plainFrame 0x20 0x1000, plainFrame 0x20 0x2000, plainFrame 0x20 0x3000]).mem
      ((InitialiseFakeThreadState (machineAt 0x10000)
        [plainFrame 0x20 0x1000, plainFrame 0x20 0x2000, plainFrame 0x20 0x3000]).Context.Rsp
        + 0x40) = 0x3000 ∧
    read64 (InitialiseFakeThreadState (machineAt 0x10000)
        [plainFrame 0x20 0x1000, plainFrame 0x20 0x2000, plainFrame 0x20 0x3000]).mem
      ((InitialiseFakeThreadState (machineAt 0x10000)
        [plainFrame 0x20 0x1000, plainFrame 0x20 0x2000, plainFrame 0x20 0x3000]).Context.Rsp
        + 0x60) = 0 :=
  ⟨by decide, baseline_layout (machineAt 0x10000) (plainFrame 0x20 0x1000) (plainFrame 0x20 0x2000)
    (plainFrame 0x20 0x3000) (by decide) (by decide) (by decide) (by decide)⟩

/-- The walk claimed by C6 fails for a frame of size 0: its return address is written over
the sentinel, so the slot reached after the frame does not hold zero. -/
theorem sentinel_walk_counterexample :
    (machineAt 0x10000).Context.Rsp % 8 = 0 ∧
    read64 (InitialiseFakeThreadState (machineAt 0x10000) [plainFrame 0 0x1000]).mem
      ((InitialiseFakeThreadState (machineAt 0x10000) [plainFrame 0 0x1000]).Context.Rsp +
        totalSize [plainFrame 0 0x1000]) ≠ 0 := by
  decide

/-- A second way the walk of C6 fails: a frame whose return address is zero puts a zero
slot on the walk before the sentinel. -/
theorem sentinel_walk_zero_return_address :
    read64 (InitialiseFakeThreadState (machineAt 0x10000) [plainFrame 0x20 0]).mem
      ((InitialiseFakeThreadState (machineAt 0x10000) [plainFrame 0x20 0]).Context.Rsp +
        sizeBefore [plainFrame 0x20 0] 0) = 0 := by
  decide

/-- C6 (amended): from an 8-aligned stack pointer, when every frame has a non-zero return
address and a `totalStackSize` of at least 8, every frame that takes the fixup path is
entered with an aligned stack pointer and has room for its pushes, and the frames and the
sentinel fit the address space, the walk from the final stack pointer by each frame's
`totalStackSize` in list order meets no zero slot before the last one, which is the
sentinel at the initial stack pointer minus 8 and holds zero. -/
theorem sentinel_walk (s : Machine) (frames : List StackFrame) (hsp : s.Context.Rsp % 8 = 0)
    (hfit : FixupsFit (afterSentinel s) frames)
    (h8 : ∀ f ∈ frames, 8 ≤ f.totalStackSize)
    (hra : ∀ f ∈ frames, 0 < f.returnAddress ∧ f.returnAddress < 2 ^ 64)
    (hw : totalSize frames + 8 ≤ 2 ^ 64) :
    (∀ (i : Nat) (_ : i < frames.length),
      read64 (InitialiseFakeThreadState s frames).mem
        ((InitialiseFakeThreadState s frames).Context.Rsp + sizeBefore frames i) ≠ 0) ∧
    (((InitialiseFakeThreadState s frames).Context.Rsp + totalSize frames : Nat) : Int) % 2 ^ 64 =
      ((s.Context.Rsp : Int) - 8) % 2 ^ 64 ∧
    read64 (InitialiseFakeThreadState s frames).mem
      ((InitialiseFakeThreadState s frames).Context.Rsp + totalSize frames) = 0 := by
  have hw2 : totalSize frames + 8 ≤ W64 := by simpa [W64] using hw
  obtain ⟨-, hread⟩ := runFrom_layout _ frames hfit h8 (by omega)
  obtain ⟨hslot, hzero⟩ := sentinel_kept s frames hsp hfit h8 hw2
  refine ⟨?_, ?_, hzero⟩
  · intro i hi
    have h := hread i hi
    obtain ⟨hpos, hlt⟩ := hra _ (List.getElem_mem hi)
    have hlt2 : frames[i].returnAddress < W64 := by simpa [W64] using hlt
    rw [Nat.mod_eq_of_lt hlt2] at h
    simp only [InitialiseFakeThreadState, InitialiseFakeThreadStateRun]
    rw [h]
    omega
  · simp only [W64_eq] at hslot
    omega

theorem sentinel_walk_witness :
    (machineAt 0x10000).Context.Rsp % 8 = 0 ∧
    FixupsFit (afterSentinel (machineAt 0x10000))
      [plainFrame 0x20 0x1000, frameB, frameA] ∧
    (∀ f ∈ [plainFrame 0x20 0x1000, frameB, frameA], 8 ≤ f.totalStackSize) ∧
    (∀ f ∈ [plainFrame 0x20 0x1000, frameB, frameA],
      0 < f.returnAddress ∧ f.returnAddress < 2 ^ 64) ∧
    totalSize [plainFrame 0x20 0x1000, frameB, frameA] + 8 ≤ 2 ^ 64 ∧
    (∀ (i : Nat) (_ : i < [plainFrame 0x20 0x1000, frameB, frameA].length),
      read64 (InitialiseFakeThreadState (machineAt 0x10000)
          [plainFrame 0x20 0x1000, frameB, frameA]).mem
        ((InitialiseFakeThreadState (machineAt 0x10000)
          [plainFrame 0x20 0x1000, frameB, frameA]).Context.Rsp +
          sizeBefore [plainFrame 0x20 0x1000, frameB, frameA] i) ≠ 0) ∧
    (((InitialiseFakeThreadState (machineAt 0x10000)
        [plainFrame 0x20 0x1000, frameB, frameA]).Context.Rsp +
        totalSize [plainFrame 0x20 0x1000, frameB, frameA] : Nat) : Int) % 2 ^ 64 =
      (((machineAt 0x10000).Context.Rsp : Int) - 8) % 2 ^ 64 ∧
    read64 (InitialiseFakeThreadState (machineAt 0x10000)
        [plainFrame 0x20 0x1000, frameB, frameA]).mem
      ((InitialiseFakeThreadState (machineAt 0x10000)
        [plainFrame 0x20 0x1000, frameB, frameA]).Context.Rsp +
        totalSize [plainFrame 0x20 0x1000, frameB, frameA]) = 0 :=
  ⟨by decide, by decide, by decide, by decide, by decide,
    sentinel_walk (machineAt 0x10000) _ (by decide) (by decide) (by decide) (by decide)
      (by decide)⟩

/-- C7: for every context and every non-empty frame list, the eight bytes at the final
stack pointer are the return address of the first (outermost) frame. -/
theorem final_rsp_holds_outermost (s : Machine) (f : StackFrame) (rest : List StackFrame)
    (hra : f.returnAddress < 2 ^ 64) :
    read64 (InitialiseFakeThreadState s (f :: rest)).mem
      (InitialiseFakeThreadState s (f :: rest)).Context.Rsp = f.returnAddress := by
  simp only [InitialiseFakeThreadState, InitialiseFakeThreadStateRun, runFrom_cons]
  rw [processFrame_read]
  exact Nat.mod_eq_of_lt (by simpa [W64] using hra)

theorem final_rsp_holds_outermost_witness :
    frameB.returnAddress < 2 ^ 64 ∧
    read64 (InitialiseFakeThreadState (machineAt 0x10004) [frameB, frameA]).mem
      (InitialiseFakeThreadState (machineAt 0x10004) [frameB, frameA]).Context.Rsp =
      frameB.returnAddress :=
  ⟨by decide, final_rsp_holds_outermost (machineAt 0x10004) frameB [frameA] (by decide)⟩

/-! ## The frame-pointer fixup -/

theorem read64_write64_far (mem : Memory) (a v b : Nat)
    (h : ∀ k, k < 8 → 8 ≤ offsetFrom a ((b + k) % W64)) :
    read64 (write64 mem a v) b = read64 mem b :=
  read64_congr _ _ _ _ (fun k hk => write64_far mem a v _ (h k hk))

theorem processFrame_sets (b : Builder) (f : StackFrame) (h : f.setsFramePointer = true) :
    (processFrame b f).childSp = ((processFrame b f).s.Context.Rsp + 8) % W64 ∧
    (processFrame b f).bPreviousFrameSetUWOP_SET_FPREG = true := by
  simp [processFrame, recordChildSp, h]

theorem processFrame_plain (b : Builder) (f : StackFrame) (hp : f.pushRbp = false)
    (hs : f.setsFramePointer = false) :
    (processFrame b f).childSp = b.childSp ∧
    (processFrame b f).bPreviousFrameSetUWOP_SET_FPREG = b.bPreviousFrameSetUWOP_SET_FPREG := by
  simp [processFrame, recordChildSp, takesFixupPath, normalPath, hp, hs]

theorem processFrames_plain (mid : List StackFrame) : ∀ (b : Builder),
    (∀ m ∈ mid, m.pushRbp = false ∧ m.setsFramePointer = false) →
    (processFrames mid b).childSp = b.childSp ∧
    (processFrames mid b).bPreviousFrameSetUWOP_SET_FPREG = b.bPreviousFrameSetUWOP_SET_FPREG := by
  induction mid with
  | nil => intro b _; exact ⟨rfl, rfl⟩
  | cons m rest ih =>
    intro b h
    obtain ⟨hp, hs⟩ := h m (List.mem_cons_self _ _)
    obtain ⟨h1, h2⟩ := ih (processFrame b m) (fun x hx => h x (List.mem_cons_of_mem _ hx))
    obtain ⟨h3, h4⟩ := processFrame_plain b m hp hs
    simp only [processFrames]
    exact ⟨h1.trans h3, h2.trans h4⟩

/-- On the fixup path, from an aligned stack pointer `s` and with at least 8 bytes of the
frame left below the pushes, the slot at `s - 8 * (diff + 1)` holds the pending `childSp`
after the frame is processed. -/
theorem fixupPath_slot (b : Builder) (f : StackFrame) (hal : b.s.Context.Rsp % 8 = 0)
    (hc : b.childSp < W64) (hsize : 8 * (diff f + 2) ≤ f.totalStackSize)
    (hlt : f.totalStackSize < W32) :
    read64 (fixupPath b f).s.mem (b.s.Context.Rsp + W64 - 8 * (diff f + 1)) = b.childSp := by
  obtain ⟨h1, h2, h3, -⟩ := pushLoop_aligned (diff f) b 0 hal
  have hr := callPushToStack_aligned_rsp (pushLoop (diff f) b 0).1 b.childSp h2
  have hm := callPushToStack_aligned_mem (pushLoop (diff f) b 0).1 b.childSp h2
  have hdec : fixupDecrement f (pushLoop (diff f) b 0).2 = f.totalStackSize - 8 * (diff f + 1) := by
    rw [h1]
    simp only [fixupDecrement, W32_eq] at *
    omega
  have hd : diff f < W32 := Nat.mod_lt _ (by norm_num [W32])
  simp only [fixupPath, writeReturnAddress_mem, hr, hm, hdec]
  have hslot : read64 (write64 (pushLoop (diff f) b 0).1.s.mem
      (((pushLoop (diff f) b 0).1.s.Context.Rsp + W64 - 8) % W64) b.childSp)
      (((pushLoop (diff f) b 0).1.s.Context.Rsp + W64 - 8) % W64) = b.childSp := by
    rw [read64_write64_same, Nat.mod_eq_of_lt hc]
  refine Eq.trans ?_ hslot
  rw [read64_write64_far]
  · apply read64_congr
    intro k hk
    have : (b.s.Context.Rsp + W64 - 8 * (diff f + 1) + k) % W64 =
        (((pushLoop (diff f) b 0).1.s.Context.Rsp + W64 - 8) % W64 + k) % W64 := by
      simp only [W64_eq, W32_eq] at *
      omega
    rw [this]
  · intro k hk
    simp only [offsetFrom, W64_eq, W32_eq] at *
    omega


/-- The claim of C8 fails for a frame P just large enough for its pushes: here P has size
8 and `diff = 0`, so `childSp` is pushed at `s - 8` and P's return address is then written
to the same slot. -/
theorem fixup_propagation_counterexample :
    frameA.setsFramePointer = true ∧ tightFrame.pushRbp = true ∧
    (processFrame (afterSentinel (machineAt 0x10000)) frameA).s.Context.Rsp % 8 = 0 ∧
    read64 (processFrame (processFrame (afterSentinel (machineAt 0x10000)) frameA) tightFrame).s.mem
      ((processFrame (afterSentinel (machineAt 0x10000)) frameA).s.Context.Rsp + 2 ^ 64 -
        8 * (diff tightFrame + 1)) ≠
      ((processFrame (afterSentinel (machineAt 0x10000)) frameA).s.Context.Rsp + 8) % 2 ^ 64 := by
  decide

/-- A second way the claim of C8 fails: when another frame that sets the frame pointer is
processed between E and P, the slot holds the later frame's `childSp`, not E's. -/
theorem fixup_propagation_later_setter :
    read64 (processFrames [frameA, setterFrame 0x20 0x1000, frameB]
        (afterSentinel (machineAt 0x10000))).s.mem
      ((processFrames [frameA, setterFrame 0x20 0x1000]
        (afterSentinel (machineAt 0x10000))).s.Context.Rsp + 2 ^ 64 - 8 * (diff frameB + 1)) ≠
      ((processFrame (afterSentinel (machineAt 0x10000)) frameA).s.Context.Rsp + 8) % 2 ^ 64 := by
  decide

/-- C8 (amended): let E set the frame pointer, let no frame processed between E and P push
rbp or set the frame pointer, let P push rbp and be reached with an 8-aligned stack
pointer `s`, and let P's `totalStackSize` be at least `8 * (diff + 2)` and below `2 ^ 32`.
Then after P is processed the eight bytes at `s - 8 * (diff + 1)` hold `childSp`, the stack
pointer right after E's adjustment plus 8; with `diff = 0` the slot is `s - 8`. -/
theorem fixup_propagation (bE : Builder) (E P : StackFrame) (mid : List StackFrame)
    (hE : E.setsFramePointer = true)
    (hmid : ∀ m ∈ mid, m.pushRbp = false ∧ m.setsFramePointer = false)
    (hP : P.pushRbp = true)
    (hal : (processFrames mid (processFrame bE E)).s.Context.Rsp % 8 = 0)
    (hsize : 8 * (diff P + 2) ≤ P.totalStackSize) (hlt : P.totalStackSize < 2 ^ 32) :
    read64 (processFrame (processFrames mid (processFrame bE E)) P).s.mem
      ((processFrames mid (processFrame bE E)).s.Context.Rsp + 2 ^ 64 - 8 * (diff P + 1)) =
      ((processFrame bE E).s.Context.Rsp + 8) % 2 ^ 64 ∧
    (diff P = 0 →
      read64 (processFrame (processFrames mid (processFrame bE E)) P).s.mem
        ((processFrames mid (processFrame bE E)).s.Context.Rsp + 2 ^ 64 - 8) =
        ((processFrame bE E).s.Context.Rsp + 8) % 2 ^ 64) := by
  obtain ⟨hc, hf⟩ := processFrame_sets bE E hE
  obtain ⟨hc2, hf2⟩ := processFrames_plain mid (processFrame bE E) hmid
  have htake : takesFixupPath (processFrames mid (processFrame bE E)) P = true := by
    simp [takesFixupPath, hf2, hf, hP]
  have hchild : (processFrames mid (processFrame bE E)).childSp =
      ((processFrame bE E).s.Context.Rsp + 8) % W64 := hc2.trans hc
  have hslot := fixupPath_slot (processFrames mid (processFrame bE E)) P hal
    (by rw [hchild]; exact Nat.mod_lt _ (by norm_num [W64])) hsize (by simpa [W32] using hlt)
  have hmain : read64 (processFrame (processFrames mid (processFrame bE E)) P).s.mem
      ((processFrames mid (processFrame bE E)).s.Context.Rsp + 2 ^ 64 - 8 * (diff P + 1)) =
      ((processFrame bE E).s.Context.Rsp + 8) % 2 ^ 64 := by
    rw [processFrame_s, if_pos htake]
    rw [hchild] at hslot
    simpa [W64] using hslot
  refine ⟨hmain, fun h0 => ?_⟩
  rw [h0] at hmain
  simpa using hmain

theorem fixup_propagation_witness :
    frameA.setsFramePointer = true ∧
    (∀ m ∈ [plainFrame 0x20 0x1000], m.pushRbp = false ∧ m.setsFramePointer = false) ∧
    frameB.pushRbp = true ∧
    (processFrames [plainFrame 0x20 0x1000]
      (processFrame (afterSentinel (machineAt 0x10000)) frameA)).s.Context.Rsp % 8 = 0 ∧
    8 * (diff frameB + 2) ≤ frameB.totalStackSize ∧ frameB.totalStackSize < 2 ^ 32 ∧
    (read64 (processFrame (processFrames [plainFrame 0x20 0x1000]
        (processFrame (afterSentinel (machineAt 0x10000)) frameA)) frameB).s.mem
      ((processFrames [plainFrame 0x20 0x1000]
        (processFrame (afterSentinel (machineAt 0x10000)) frameA)).s.Context.Rsp + 2 ^ 64 -
        8 * (diff frameB + 1)) =
      ((processFrame (afterSentinel (machineAt 0x10000)) frameA).s.Context.Rsp + 8) % 2 ^ 64 ∧
    (diff frameB = 0 →
      read64 (processFrame (processFrames [plainFrame 0x20 0x1000]
          (processFrame (afterSentinel (machineAt 0x10000)) frameA)) frameB).s.mem
        ((processFrames [plainFrame 0x20 0x1000]
          (processFrame (afterSentinel (machineAt 0x10000)) frameA)).s.Context.Rsp + 2 ^ 64 - 8) =
        ((processFrame (afterSentinel (machineAt 0x10000)) frameA).s.Context.Rsp + 8) % 2 ^ 64)) :=
  ⟨by decide, by decide, by decide, by decide, by decide, by decide,
    fixup_propagation (afterSentinel (machineAt 0x10000)) frameA frameB [plainFrame 0x20 0x1000]
      (by decide) (by decide) (by decide) (by decide) (by decide) (by decide)⟩


/-! ## The fixup scenario of the specification -/

theorem callPushToStack_calls (b : Builder) (v : Nat) :
    (callPushToStack b v).calls = b.calls ++ [(b.s.Context.Rsp, v)] := rfl

theorem afterSentinel_calls (s : Machine) : (afterSentinel s).calls = [(s.Context.Rsp, 0)] := rfl

theorem afterSentinel_flag (s : Machine) :
    (afterSentinel s).bPreviousFrameSetUWOP_SET_FPREG = false := rfl

theorem processFrame_normal (b : Builder) (f : StackFrame) (h : takesFixupPath b f = false) :
    processFrame b f = recordChildSp (normalPath b f) f := by
  simp [processFrame, h]

theorem processFrame_fixup (b : Builder) (f : StackFrame) (h : takesFixupPath b f = true) :
    processFrame b f = recordChildSp (fixupPath b f) f := by
  simp [processFrame, h]

theorem recordChildSp_calls (b : Builder) (f : StackFrame) :
    (recordChildSp b f).calls = b.calls := by
  unfold recordChildSp
  split <;> rfl

/-- The normal path makes no call of `PushToStack`. -/
theorem processFrame_normal_calls (b : Builder) (f : StackFrame)
    (h : takesFixupPath b f = false) : (processFrame b f).calls = b.calls := by
  rw [processFrame_normal b f h, recordChildSp_calls]
  rfl

/-- With list order A, B the frame B is processed first, with no fixup pending, and
pushes nothing: the sentinel push is the only call of `PushToStack` in the run. -/
theorem fixup_scenario_counterexample :
    InitialiseFakeThreadStateRun (machineAt 0x10000) [frameA, frameB] =
      processFrame (processFrame (afterSentinel (machineAt 0x10000)) frameB) frameA ∧
    takesFixupPath (afterSentinel (machineAt 0x10000)) frameB = false ∧
    (processFrame (afterSentinel (machineAt 0x10000)) frameB).calls =
      (afterSentinel (machineAt 0x10000)).calls ∧
    (InitialiseFakeThreadStateRun (machineAt 0x10000) [frameA, frameB]).calls = [(0x10000, 0)] :=
  ⟨rfl, by decide, by decide, by decide⟩

/-- C9 (amended): for A (size 0x28, sets the frame pointer) and B (size 0x30, pushes rbp,
`pushRbpIndex = 1`, `countOfCodes = 3`) and an 8-aligned stack pointer: with list order
A, B the builder processes B then A and B, met with no fixup pending, pushes nothing;
with list order B, A the builder processes A then B, and B's processing pushes two zero
placeholders and then `childSp`, which is A's post-adjustment stack pointer plus 8. -/
theorem fixup_scenario (s : Machine) (A B : StackFrame) (hsp : s.Context.Rsp % 8 = 0)
    (hA : A.totalStackSize = 0x28 ∧ A.setsFramePointer = true)
    (hB : B.totalStackSize = 0x30 ∧ B.pushRbp = true ∧ B.pushRbpIndex = 1 ∧ B.countOfCodes = 3) :
    (InitialiseFakeThreadStateRun s [A, B] =
        processFrame (processFrame (afterSentinel s) B) A ∧
      (processFrame (afterSentinel s) B).calls = (afterSentinel s).calls) ∧
    (InitialiseFakeThreadStateRun s [B, A] =
        processFrame (processFrame (afterSentinel s) A) B ∧
      diff B = 2 ∧
      (processFrame (afterSentinel s) A).calls = (afterSentinel s).calls ∧
      (processFrame (processFrame (afterSentinel s) A) B).calls =
        (processFrame (afterSentinel s) A).calls ++
          [((processFrame (afterSentinel s) A).s.Context.Rsp, 0),
           (((processFrame (afterSentinel s) A).s.Context.Rsp + 2 ^ 64 - 8) % 2 ^ 64, 0),
           (((processFrame (afterSentinel s) A).s.Context.Rsp + 2 ^ 64 - 16) % 2 ^ 64,
            ((processFrame (afterSentinel s) A).s.Context.Rsp + 8) % 2 ^ 64)]) := by
  obtain ⟨tA, sA⟩ := hA
  obtain ⟨tB, pB, iB, cB⟩ := hB
  have hd : diff B = 2 := by simp [diff, iB, cB, W32_eq]
  have hB0 : takesFixupPath (afterSentinel s) B = false := by
    simp [takesFixupPath, afterSentinel_flag]
  have hA0 : takesFixupPath (afterSentinel s) A = false := by
    simp [takesFixupPath, afterSentinel_flag]
  refine ⟨⟨rfl, processFrame_normal_calls _ _ hB0⟩, rfl, hd,
    processFrame_normal_calls _ _ hA0, ?_⟩
  obtain ⟨hc, hf⟩ := processFrame_sets (afterSentinel s) A sA
  have hrA := processFrame_rsp (afterSentinel s) A (fun h => by rw [hA0] at h; cases h)
  have hltA := processFrame_rsp_lt (afterSentinel s) A
  have halA : (processFrame (afterSentinel s) A).s.Context.Rsp % 8 = 0 := by
    rw [hrA, afterSentinel_rsp s hsp, tA]
    simp only [W64_eq]
    omega
  have htake : takesFixupPath (processFrame (afterSentinel s) A) B = true := by
    simp [takesFixupPath, hf, pB]
  have h1 := callPushToStack_aligned_rsp (processFrame (afterSentinel s) A) 0 halA
  have hal1 : (callPushToStack (processFrame (afterSentinel s) A) 0).s.Context.Rsp % 8 = 0 := by
    rw [h1]; simp only [W64_eq]; omega
  have h2 := callPushToStack_aligned_rsp (callPushToStack (processFrame (afterSentinel s) A) 0) 0 hal1
  rw [processFrame_fixup _ _ htake, recordChildSp_calls]
  simp only [fixupPath, hd, pushLoop, callPushToStack_calls, h2, h1, hc, List.append_assoc,
    List.cons_append, List.nil_append, callPushToStack_childSp]
  have e : (((processFrame (afterSentinel s) A).s.Context.Rsp + W64 - 8) % W64 + W64 - 8) % W64 =
      ((processFrame (afterSentinel s) A).s.Context.Rsp + 2 ^ 64 - 16) % 2 ^ 64 := by
    simp only [W64_eq] at *
    omega
  rw [e]
  simp only [W64]

theorem fixup_scenario_witness :
    (machineAt 0x10000).Context.Rsp % 8 = 0 ∧
    (frameA.totalStackSize = 0x28 ∧ frameA.setsFramePointer = true) ∧
    (frameB.totalStackSize = 0x30 ∧ frameB.pushRbp = true ∧ frameB.pushRbpIndex = 1 ∧
      frameB.countOfCodes = 3) ∧
    (processFrame (processFrame (afterSentinel (machineAt 0x10000)) frameA) frameB).calls =
      (processFrame (afterSentinel (machineAt 0x10000)) frameA).calls ++
        [((processFrame (afterSentinel (machineAt 0x10000)) frameA).s.Context.Rsp, 0),
         (((processFrame (afterSentinel (machineAt 0x10000)) frameA).s.Context.Rsp + 2 ^ 64 - 8)
            % 2 ^ 64, 0),
         (((processFrame (afterSentinel (machineAt 0x10000)) frameA).s.Context.Rsp + 2 ^ 64 - 16)
            % 2 ^ 64,
          ((processFrame (afterSentinel (machineAt 0x10000)) frameA).s.Context.Rsp + 8) % 2 ^ 64)] :=
  ⟨by decide, by decide, by decide,
    (fixup_scenario (machineAt 0x10000) frameA frameB (by decide) (by decide) (by decide)).2.2.2.2⟩


/-- The loop adds eight to `tmpStackSizeCounter` in every round, whether or not the push
of that round took effect. -/
theorem pushLoop_counter (n : Nat) : ∀ (b : Builder) (tmp : Nat),
    (pushLoop n b tmp).2 = tmp + 8 * n := by
  induction n with
  | zero => intro b tmp; rfl
  | succ n ih =>
    intro b tmp
    simp only [pushLoop, ih]
    omega

theorem fixupPath_rsp (b : Builder) (f : StackFrame) :
    (fixupPath b f).s.Context.Rsp =
      ((callPushToStack (pushLoop (diff f) b 0).1 b.childSp).s.Context.Rsp + W64 -
        fixupDecrement f (pushLoop (diff f) b 0).2 % W64) % W64 := rfl

/-- The decrement claimed by C10 is not the one the code applies: for frame B on the fixup
path the amount subtracted after the pushes is 0x18, not 0x08. -/
theorem remaining_decrement_counterexample :
    takesFixupPath (processFrame (afterSentinel (machineAt 0x10000)) frameA) frameB = true ∧
    frameB.totalStackSize = 0x30 ∧ frameB.pushRbpIndex = 1 ∧ frameB.countOfCodes = 3 ∧
    fixupDecrement frameB
      (pushLoop (diff frameB) (processFrame (afterSentinel (machineAt 0x10000)) frameA) 0).2 ≠ 0x08 := by
  decide

/-- C10 (amended): for a frame with `totalStackSize = 0x30`, `pushRbpIndex = 1` and
`countOfCodes = 3` on the fixup path, `diff` is 2 and the direct stack-pointer decrement
applied after the two placeholder pushes and the `childSp` push is
`0x30 - (2 * 8 + 8) = 0x18`. -/
theorem remaining_decrement (b : Builder) (f : StackFrame) (ht : f.totalStackSize = 0x30)
    (hi : f.pushRbpIndex = 1) (hc : f.countOfCodes = 3) :
    diff f = 2 ∧
    fixupDecrement f (pushLoop (diff f) b 0).2 = 0x18 ∧
    (fixupPath b f).s.Context.Rsp =
      ((callPushToStack (pushLoop (diff f) b 0).1 b.childSp).s.Context.Rsp + 2 ^ 64 - 0x18)
        % 2 ^ 64 := by
  have hd : diff f = 2 := by simp [diff, hi, hc, W32_eq]
  have hdec : fixupDecrement f (pushLoop (diff f) b 0).2 = 0x18 := by
    rw [pushLoop_counter, hd]
    simp [fixupDecrement, ht, W32_eq]
  refine ⟨hd, hdec, ?_⟩
  rw [fixupPath_rsp, hdec]
  simp [W64]

theorem remaining_decrement_witness :
    frameB.totalStackSize = 0x30 ∧ frameB.pushRbpIndex = 1 ∧ frameB.countOfCodes = 3 ∧
    diff frameB = 2 ∧
    fixupDecrement frameB
      (pushLoop (diff frameB) (processFrame (afterSentinel (machineAt 0x10000)) frameA) 0).2 = 0x18 ∧
    (fixupPath (processFrame (afterSentinel (machineAt 0x10000)) frameA) frameB).s.Context.Rsp =
      ((callPushToStack
          (pushLoop (diff frameB) (processFrame (afterSentinel (machineAt 0x10000)) frameA) 0).1
          (processFrame (afterSentinel (machineAt 0x10000)) frameA).childSp).s.Context.Rsp +
        2 ^ 64 - 0x18) % 2 ^ 64 :=
  ⟨by decide, by decide, by decide,
    remaining_decrement (processFrame (afterSentinel (machineAt 0x10000)) frameA) frameB
      (by decide) (by decide) (by decide)⟩

/-! ## Alignment of pushes -/

theorem PushToStack_aligned_rsp (s : Machine) (v : Nat) (h : s.Context.Rsp % 8 = 0) :
    (PushToStack s v).Context.Rsp % 8 = 0 := by
  rw [PushToStack_aligned s v h]
  simp only [subRsp_eight, W64_eq]
  omega

/-- A call of `PushToStack` that changes the state starts and ends with an aligned stack
pointer. -/
theorem PushToStack_changes_aligned (s : Machine) (v : Nat) (h : PushToStack s v ≠ s) :
    s.Context.Rsp % 8 = 0 ∧ (PushToStack s v).Context.Rsp % 8 = 0 := by
  have hal : s.Context.Rsp % 8 = 0 := by
    by_contra hne
    exact h (PushToStack_misaligned s v hne)
  exact ⟨hal, PushToStack_aligned_rsp s v hal⟩

/-- C12: in every finite sequence of `PushToStack` calls from any context, the stack
pointer is a multiple of 8 both right before and right after every call that changes the
state. -/
theorem pushAll_alignment (s : Machine) (vs : List Nat) (k : Nat) (hk : k < vs.length)
    (hchange : PushToStack (pushAll s (vs.take k)) vs[k] ≠ pushAll s (vs.take k)) :
    (pushAll s (vs.take k)).Context.Rsp % 8 = 0 ∧
    (PushToStack (pushAll s (vs.take k)) vs[k]).Context.Rsp % 8 = 0 :=
  PushToStack_changes_aligned _ _ hchange

theorem pushAll_alignment_witness :
    PushToStack (pushAll (machineAt 0x1000) ([0x11, 0x22, 0x33].take 1)) [0x11, 0x22, 0x33][1] ≠
      pushAll (machineAt 0x1000) ([0x11, 0x22, 0x33].take 1) ∧
    (pushAll (machineAt 0x1000) ([0x11, 0x22, 0x33].take 1)).Context.Rsp % 8 = 0 ∧
    (PushToStack (pushAll (machineAt 0x1000) ([0x11, 0x22, 0x33].take 1))
      [0x11, 0x22, 0x33][1]).Context.Rsp % 8 = 0 :=
  ⟨fun h => absurd (congrArg (fun m => m.Context.Rsp) h) (by decide),
    pushAll_alignment (machineAt 0x1000) [0x11, 0x22, 0x33] 1 (by decide)
      (fun h => absurd (congrArg (fun m => m.Context.Rsp) h) (by decide))⟩

/-! ## Registers other than `Rsp` -/

theorem sameOtherRegisters_refl (c : CONTEXT) : SameOtherRegisters c c := rfl

theorem subRsp_sameOther (c c0 : CONTEXT) (n : Nat) (h : SameOtherRegisters c c0) :
    SameOtherRegisters (subRsp c n) c0 := by
  unfold SameOtherRegisters subRsp at *
  exact h

theorem PushToStack_sameOther (s : Machine) (v : Nat) (c0 : CONTEXT)
    (h : SameOtherRegisters s.Context c0) : SameOtherRegisters (PushToStack s v).Context c0 := by
  unfold PushToStack
  split
  · exact h
  · exact subRsp_sameOther _ _ _ h

theorem pushLoop_sameOther (n : Nat) (c0 : CONTEXT) : ∀ (b : Builder) (tmp : Nat),
    SameOtherRegisters b.s.Context c0 → SameOtherRegisters (pushLoop n b tmp).1.s.Context c0 := by
  induction n with
  | zero => intro b tmp h; exact h
  | succ n ih =>
    intro b tmp h
    exact ih (callPushToStack b 0) (tmp + 8) (PushToStack_sameOther _ _ _ h)

theorem processFrame_sameOther (b : Builder) (f : StackFrame) (c0 : CONTEXT)
    (h : SameOtherRegisters b.s.Context c0) :
    SameOtherRegisters (processFrame b f).s.Context c0 := by
  rw [processFrame_s]
  split
  · exact subRsp_sameOther _ _ _ (PushToStack_sameOther _ _ _ (pushLoop_sameOther _ _ _ _ h))
  · exact subRsp_sameOther _ _ _ h

theorem runFrom_sameOther (b : Builder) (frames : List StackFrame) (c0 : CONTEXT)
    (h : SameOtherRegisters b.s.Context c0) :
    SameOtherRegisters (runFrom b frames).s.Context c0 := by
  induction frames with
  | nil => exact h
  | cons f rest ih => rw [runFrom_cons]; exact processFrame_sameOther _ _ _ ih

/-- C14: `PushToStack` and `InitialiseFakeThreadState` leave every field of the context
other than `Rsp` equal to its input value: putting the input `Rsp` back into the output
context gives the input context. -/
theorem only_rsp_changes (s : Machine) (v : Nat) (frames : List StackFrame) :
    { (PushToStack s v).Context with Rsp := s.Context.Rsp } = s.Context ∧
    { (InitialiseFakeThreadState s frames).Context with Rsp := s.Context.Rsp } = s.Context :=
  ⟨PushToStack_sameOther s v s.Context (sameOtherRegisters_refl _),
    runFrom_sameOther _ frames s.Context
      (PushToStack_sameOther _ 0 s.Context (sameOtherRegisters_refl _))⟩


/-! ## Misaligned start -/

theorem processFrames_eq_foldl (fs : List StackFrame) : ∀ b : Builder,
    processFrames fs b = List.foldl processFrame b fs := by
  induction fs with
  | nil => intro b; rfl
  | cons f fs ih => intro b; exact ih (processFrame b f)

theorem afterSentinel_misaligned (s : Machine) (h : s.Context.Rsp % 8 ≠ 0) :
    (afterSentinel s).s = s := by
  simp only [afterSentinel, callPushToStack]
  exact PushToStack_misaligned s 0 h

theorem outermost_at_final_rsp (s : Machine) (f : StackFrame) (rest : List StackFrame) :
    read64 (InitialiseFakeThreadState s (f :: rest)).mem
      (InitialiseFakeThreadState s (f :: rest)).Context.Rsp = f.returnAddress % W64 := by
  simp only [InitialiseFakeThreadState, InitialiseFakeThreadStateRun, runFrom_cons]
  exact processFrame_read _ f

/-- C13: from a stack pointer with `Rsp & 7 != 0`, when no frame takes the fixup path, the
sentinel push changes nothing, the loop still runs over every frame, the final stack
pointer is the initial one minus the sum of `totalStackSize` (no extra 8), and the first
frame's return address lies at the final stack pointer. -/
theorem fail_open_on_misalignment (s : Machine) (frames : List StackFrame)
    (hsp : s.Context.Rsp &&& 0x7 ≠ 0) (hlt : s.Context.Rsp < 2 ^ 64)
    (hno : NoFixup (afterSentinel s) frames) :
    (afterSentinel s).s = s ∧
    InitialiseFakeThreadStateRun s frames =
      List.foldl processFrame (afterSentinel s) frames.reverse ∧
    ((InitialiseFakeThreadState s frames).Context.Rsp : Int) =
      ((s.Context.Rsp : Int) - (totalSize frames : Int)) % 2 ^ 64 ∧
    (∀ (f : StackFrame) (rest : List StackFrame), frames = f :: rest →
      f.returnAddress < 2 ^ 64 →
      read64 (InitialiseFakeThreadState s frames).mem
        (InitialiseFakeThreadState s frames).Context.Rsp = f.returnAddress) := by
  have h8 : s.Context.Rsp % 8 ≠ 0 := by rw [← and_seven]; exact hsp
  have hs := afterSentinel_misaligned s h8
  have hlt2 : (afterSentinel s).s.Context.Rsp < W64 := by rw [hs]; simpa [W64] using hlt
  have hrun := runFrom_rsp _ frames (NoFixup.fixupsFit _ _ hno)
  have hfin := runFrom_rsp_lt (afterSentinel s) frames hlt2
  rw [hs] at hrun
  refine ⟨hs, processFrames_eq_foldl _ _, ?_, ?_⟩
  · simp only [InitialiseFakeThreadState, InitialiseFakeThreadStateRun]
    simp only [W64_eq] at *
    omega
  · intro f rest hfr hra
    subst hfr
    rw [outermost_at_final_rsp]
    exact Nat.mod_eq_of_lt (by simpa [W64] using hra)


theorem fail_open_on_misalignment_witness :
    (machineAt 0x10004).Context.Rsp &&& 0x7 ≠ 0 ∧ (machineAt 0x10004).Context.Rsp < 2 ^ 64 ∧
    NoFixup (afterSentinel (machineAt 0x10004)) [plainFrame 0x20 0x1000, plainFrame 0x28 0x2000] ∧
    (afterSentinel (machineAt 0x10004)).s = machineAt 0x10004 ∧
    ((InitialiseFakeThreadState (machineAt 0x10004)
      [plainFrame 0x20 0x1000, plainFrame 0x28 0x2000]).Context.Rsp : Int) =
      (((machineAt 0x10004).Context.Rsp : Int) -
        (totalSize [plainFrame 0x20 0x1000, plainFrame 0x28 0x2000] : Int)) % 2 ^ 64 :=
  ⟨by decide, by decide, by decide,
    (fail_open_on_misalignment (machineAt 0x10004) [plainFrame 0x20 0x1000, plainFrame 0x28 0x2000]
      (by decide) (by decide) (by decide)).1,
    (fail_open_on_misalignment (machineAt 0x10004) [plainFrame 0x20 0x1000, plainFrame 0x28 0x2000]
      (by decide) (by decide) (by decide)).2.2.1⟩

/-! ## Determinism -/

theorem sameStack_refl (s : Machine) : SameStack s s := ⟨rfl, rfl⟩

theorem PushToStack_sameStack (s1 s2 : Machine) (v : Nat) (h : SameStack s1 s2) :
    SameStack (PushToStack s1 v) (PushToStack s2 v) := by
  obtain ⟨hr, hm⟩ := h
  unfold PushToStack
  rw [hr]
  split
  · exact ⟨hr, hm⟩
  · simp only [SameStack, subRsp, hr, hm, and_self]

theorem writeReturnAddress_sameStack (s1 s2 : Machine) (n : Nat) (f : StackFrame)
    (h : SameStack s1 s2) :
    SameStack (writeReturnAddress s1 n f) (writeReturnAddress s2 n f) := by
  obtain ⟨hr, hm⟩ := h
  simp only [SameStack, writeReturnAddress, subRsp, hr, hm, and_self]

theorem callPushToStack_sameRun (b1 b2 : Builder) (v : Nat) (h : SameRun b1 b2) :
    SameRun (callPushToStack b1 v) (callPushToStack b2 v) := by
  obtain ⟨hs, hc, hf, hl⟩ := h
  refine ⟨PushToStack_sameStack _ _ v hs, hc, hf, ?_⟩
  simp only [callPushToStack, hl, hs.1]

theorem pushLoop_sameRun (n : Nat) : ∀ (b1 b2 : Builder) (tmp : Nat), SameRun b1 b2 →
    SameRun (pushLoop n b1 tmp).1 (pushLoop n b2 tmp).1 ∧
    (pushLoop n b1 tmp).2 = (pushLoop n b2 tmp).2 := by
  induction n with
  | zero => intro b1 b2 tmp h; exact ⟨h, rfl⟩
  | succ n ih =>
    intro b1 b2 tmp h
    exact ih _ _ (tmp + 8) (callPushToStack_sameRun b1 b2 0 h)

theorem processFrame_sameRun (b1 b2 : Builder) (f : StackFrame) (h : SameRun b1 b2) :
    SameRun (processFrame b1 f) (processFrame b2 f) := by
  have hflag := h.2.2.1
  have hchild := h.2.1
  have hbranch : SameRun (if takesFixupPath b1 f then fixupPath b1 f else normalPath b1 f)
      (if takesFixupPath b2 f then fixupPath b2 f else normalPath b2 f) := by
    have ht : takesFixupPath b1 f = takesFixupPath b2 f := by simp only [takesFixupPath, hflag]
    rw [ht]
    split
    · obtain ⟨h1, h2⟩ := pushLoop_sameRun (diff f) b1 b2 0 h
      have h3 := callPushToStack_sameRun _ _ b1.childSp h1
      rw [hchild] at h3
      simp only [fixupPath, hchild, h2]
      exact ⟨writeReturnAddress_sameStack _ _ _ f h3.1, h3.2.1, rfl, h3.2.2.2⟩
    · exact ⟨writeReturnAddress_sameStack _ _ _ f h.1, h.2.1, h.2.2.1, h.2.2.2⟩
  obtain ⟨hs, hc, hf, hl⟩ := hbranch
  unfold processFrame recordChildSp
  split
  · exact ⟨hs, by simp only [hs.1], rfl, hl⟩
  · exact ⟨hs, hc, hf, hl⟩

theorem runFrom_sameRun (b1 b2 : Builder) (frames : List StackFrame) (h : SameRun b1 b2) :
    SameRun (runFrom b1 frames) (runFrom b2 frames) := by
  induction frames with
  | nil => exact h
  | cons f rest ih => rw [runFrom_cons, runFrom_cons]; exact processFrame_sameRun _ _ f ih

/-- C15: the final stack pointer and the final memory of `InitialiseFakeThreadState` are
determined by the initial stack pointer, the initial memory and the frame list: two runs
that agree on these three end with the same stack pointer and the same memory, byte for
byte. -/
theorem deterministic (s1 s2 : Machine) (frames : List StackFrame)
    (hsp : s1.Context.Rsp = s2.Context.Rsp) (hmem : s1.mem = s2.mem) :
    (InitialiseFakeThreadState s1 frames).Context.Rsp =
      (InitialiseFakeThreadState s2 frames).Context.Rsp ∧
    (InitialiseFakeThreadState s1 frames).mem = (InitialiseFakeThreadState s2 frames).mem ∧
    (∀ x, (InitialiseFakeThreadState s1 frames).mem x =
      (InitialiseFakeThreadState s2 frames).mem x) := by
  have h0 : SameRun (afterSentinel s1) (afterSentinel s2) :=
    callPushToStack_sameRun (Builder.start s1) (Builder.start s2) 0 ⟨⟨hsp, hmem⟩, rfl, rfl, rfl⟩
  obtain ⟨⟨hr, hm⟩, -⟩ := runFrom_sameRun _ _ frames h0
  exact ⟨hr, hm, fun x => congrFun hm x⟩

theorem deterministic_witness :
    (machineAt 0x10000).Context.Rsp =
      (Machine.mk { contextAt 0x10000 with Rax := 7, Rip := 0x401000 } (fun _ => 0)).Context.Rsp ∧
    (machineAt 0x10000).mem =
      (Machine.mk { contextAt 0x10000 with Rax := 7, Rip := 0x401000 } (fun _ => 0)).mem ∧
    (InitialiseFakeThreadState (machineAt 0x10000) [frameB, frameA]).Context.Rsp =
      (InitialiseFakeThreadState
        (Machine.mk { contextAt 0x10000 with Rax := 7, Rip := 0x401000 } (fun _ => 0))
        [frameB, frameA]).Context.Rsp ∧
    (InitialiseFakeThreadState (machineAt 0x10000) [frameB, frameA]).mem =
      (InitialiseFakeThreadState
        (Machine.mk { contextAt 0x10000 with Rax := 7, Rip := 0x401000 } (fun _ => 0))
        [frameB, frameA]).mem :=
  ⟨rfl, rfl,
    (deterministic (machineAt 0x10000)
      (Machine.mk { contextAt 0x10000 with Rax := 7, Rip := 0x401000 } (fun _ => 0))
      [frameB, frameA] rfl rfl).1,
    (deterministic (machineAt 0x10000)
      (Machine.mk { contextAt 0x10000 with Rax := 7, Rip := 0x401000 } (fun _ => 0))
      [frameB, frameA] rfl rfl).2.1⟩


/-! ## When the fixup path is taken -/

/-- The pending-fixup flag after one iteration: set when the frame sets the frame pointer,
otherwise kept unless the frame pushes rbp. -/
theorem processFrame_flag (b : Builder) (f : StackFrame) :
    (processFrame b f).bPreviousFrameSetUWOP_SET_FPREG =
      (f.setsFramePointer || (b.bPreviousFrameSetUWOP_SET_FPREG && !f.pushRbp)) := by
  unfold processFrame recordChildSp takesFixupPath
  cases hs : f.setsFramePointer <;> cases hb : b.bPreviousFrameSetUWOP_SET_FPREG <;>
    cases hp : f.pushRbp <;> simp [fixupPath, normalPath, hb]

theorem processFrames_snoc (fs : List StackFrame) (f : StackFrame) (b : Builder) :
    processFrames (fs ++ [f]) b = processFrame (processFrames fs b) f := by
  rw [processFrames_append]
  rfl

/-- The pending-fixup flag before position `k`: it is set exactly when some earlier frame
sets the frame pointer and, after the latest such frame, no frame pushes rbp. -/
theorem flag_before (b : Builder) (fs : List StackFrame)
    (hb : b.bPreviousFrameSetUWOP_SET_FPREG = false) :
    ∀ (k : Nat) (hk : k ≤ fs.length),
      ((processFrames (fs.take k) b).bPreviousFrameSetUWOP_SET_FPREG = true ↔
        ∃ (j : Nat) (hj : j < k), fs[j].setsFramePointer = true ∧
          (∀ (i : Nat) (_ : j < i) (_ : i < k), fs[i].setsFramePointer = false) ∧
          (∀ (i : Nat) (_ : j < i) (_ : i < k), fs[i].pushRbp = false)) := by
  intro k
  induction k with
  | zero =>
    intro _
    simp only [List.take_zero, processFrames, hb]
    constructor
    · intro h; cases h
    · rintro ⟨j, hj, -⟩; omega
  | succ k ih =>
    intro hk
    have hk2 : k < fs.length := by omega
    have ih2 := ih (by omega)
    rw [List.take_succ, List.getElem?_eq_getElem hk2]
    simp only [Option.toList_some, processFrames_snoc, processFrame_flag, Bool.or_eq_true,
      Bool.and_eq_true, Bool.not_eq_true', ih2]
    constructor
    · rintro (hset | ⟨⟨j, hj, hjs, hns, hnp⟩, hpk⟩)
      · exact ⟨k, by omega, hset, fun i h1 h2 => by omega, fun i h1 h2 => by omega⟩
      · cases hsk : fs[k].setsFramePointer
        · refine ⟨j, by omega, hjs, ?_, ?_⟩
          · intro i h1 h2
            rcases Nat.lt_succ_iff_lt_or_eq.mp h2 with h | h
            · exact hns i h1 h
            · subst h; exact hsk
          · intro i h1 h2
            rcases Nat.lt_succ_iff_lt_or_eq.mp h2 with h | h
            · exact hnp i h1 h
            · subst h; exact hpk
        · exact ⟨k, by omega, hsk, fun i h1 h2 => by omega, fun i h1 h2 => by omega⟩
    · rintro ⟨j, hj, hjs, hns, hnp⟩
      rcases Nat.lt_succ_iff_lt_or_eq.mp hj with h | h
      · right
        exact ⟨⟨j, h, hjs, fun i h1 h2 => hns i h1 (by omega), fun i h1 h2 => hnp i h1 (by omega)⟩,
          hnp k h (by omega)⟩
      · subst h
        left
        exact hjs


/-- C16: with `fs` the frames in processing order (the reverse of `targetCallStack`), the
frame at position `k` takes the fixup path if and only if it pushes rbp, some frame before
`k` sets the frame pointer, and after the latest such frame `j` no frame strictly between
`j` and `k` pushes rbp.  In particular the first processed frame never takes it, a frame
without `pushRbp` keeps a pending fixup pending, and after a frame has consumed the fixup
without setting the frame pointer itself no frame takes the fixup path until one sets it. -/
theorem fixup_path_iff (s : Machine) (fs : List StackFrame) (k : Nat) (hk : k < fs.length) :
    (takesFixupPath (processFrames (fs.take k) (afterSentinel s)) fs[k] = true ↔
      fs[k].pushRbp = true ∧
        ∃ (j : Nat) (hj : j < k), fs[j].setsFramePointer = true ∧
          (∀ (i : Nat) (_ : j < i) (_ : i < k), fs[i].setsFramePointer = false) ∧
          (∀ (i : Nat) (_ : j < i) (_ : i < k), fs[i].pushRbp = false)) ∧
    (∀ f : StackFrame, takesFixupPath (afterSentinel s) f = false) ∧
    (∀ (b : Builder) (f : StackFrame), b.bPreviousFrameSetUWOP_SET_FPREG = true →
      f.pushRbp = false → (processFrame b f).bPreviousFrameSetUWOP_SET_FPREG = true) ∧
    (∀ (b : Builder) (f g : StackFrame), takesFixupPath b f = true →
      f.setsFramePointer = false → takesFixupPath (processFrame b f) g = false) := by
  refine ⟨?_, ?_, ?_, ?_⟩
  · have h := flag_before (afterSentinel s) fs (afterSentinel_flag s) k (by omega)
    unfold takesFixupPath
    rw [Bool.and_eq_true, h]
    exact And.comm
  · intro f
    simp [takesFixupPath, afterSentinel_flag]
  · intro b f hb hp
    simp [processFrame_flag, hb, hp]
  · intro b f g ht hs
    simp only [takesFixupPath, Bool.and_eq_true] at ht
    simp [takesFixupPath, processFrame_flag, hs, ht.2]

theorem fixup_path_iff_witness :
    2 < [frameA, plainFrame 0x20 0x1000, frameB, frameB].length ∧
    takesFixupPath (processFrames ([frameA, plainFrame 0x20 0x1000, frameB, frameB].take 2)
      (afterSentinel (machineAt 0x10000)))
      [frameA, plainFrame 0x20 0x1000, frameB, frameB][2] = true :=
  ⟨by decide,
    ((fixup_path_iff (machineAt 0x10000) [frameA, plainFrame 0x20 0x1000, frameB, frameB] 2
      (by decide)).1).mpr
      ⟨by decide, 0, by decide, by decide,
        fun i h1 h2 => by
          obtain rfl : i = 1 := by omega
          rfl,
        fun i h1 h2 => by
          obtain rfl : i = 1 := by omega
          rfl⟩⟩


/-! ## The placeholder slots -/

theorem read64_addr_congr (mem : Memory) (a1 a2 : Nat) (h : a1 % W64 = a2 % W64) :
    read64 mem a1 = read64 mem a2 := by
  apply read64_congr
  intro i _
  have : (a1 + i) % W64 = (a2 + i) % W64 := by
    simp only [W64_eq] at *
    omega
  rw [this]

/-- From an aligned stack pointer `s`, after `n` rounds of the placeholder loop the slots
at `s - 8`, ..., `s - 8 * n` hold zero. -/
theorem pushLoop_zeros (n : Nat) : ∀ (b : Builder) (tmp : Nat), b.s.Context.Rsp % 8 = 0 →
    n < W32 → ∀ k, 1 ≤ k → k ≤ n →
    read64 (pushLoop n b tmp).1.s.mem (b.s.Context.Rsp + W64 - 8 * k) = 0 := by
  induction n with
  | zero => intro b tmp _ _ k h1 h2; omega
  | succ n ih =>
    intro b tmp hal hn k h1 h2
    have hr := callPushToStack_aligned_rsp b 0 hal
    have hm := callPushToStack_aligned_mem b 0 hal
    have hal1 : (callPushToStack b 0).s.Context.Rsp % 8 = 0 := by
      rw [hr]; simp only [W64_eq]; omega
    simp only [pushLoop]
    rcases Nat.eq_or_lt_of_le h1 with hk | hk
    · subst hk
      obtain ⟨-, -, h3, h4⟩ := pushLoop_aligned n (callPushToStack b 0) (tmp + 8) hal1
      have hzero : read64 (callPushToStack b 0).s.mem ((b.s.Context.Rsp + W64 - 8) % W64) = 0 := by
        rw [hm, read64_write64_same]; rfl
      refine Eq.trans (read64_congr _ _ _ _ ?_) hzero
      intro j hj
      have haddr : (b.s.Context.Rsp + W64 - 8 * 1 + j) % W64 =
          ((b.s.Context.Rsp + W64 - 8) % W64 + j) % W64 := by
        simp only [W64_eq]; omega
      rw [haddr]
      apply h4
      rw [hr] at h3
      simp only [offsetFrom, W64_eq, W32_eq] at *
      omega
    · have h := ih (callPushToStack b 0) (tmp + 8) hal1 (by omega) (k - 1) (by omega) (by omega)
      refine Eq.trans (read64_addr_congr _ _ _ ?_) h
      rw [hr]
      simp only [W64_eq, W32_eq] at *
      omega

/-- C17: when a frame takes the fixup path from an 8-aligned stack pointer `s` and its
`totalStackSize` is above `8 * (diff + 1)`, then after the frame is processed each of the
`diff` slots at `s - 8`, `s - 16`, ..., `s - 8 * diff` holds 0, and the byte counter of
the placeholder loop is `diff * 8`. -/
theorem placeholder_slots_zero (b : Builder) (f : StackFrame)
    (htake : takesFixupPath b f = true) (hal : b.s.Context.Rsp % 8 = 0)
    (hsize : 8 * (diff f + 1) < f.totalStackSize) (hlt : f.totalStackSize < 2 ^ 32) :
    (∀ k, 1 ≤ k → k ≤ diff f →
      read64 (processFrame b f).s.mem (b.s.Context.Rsp + 2 ^ 64 - 8 * k) = 0) ∧
    (pushLoop (diff f) b 0).2 = diff f * 8 := by
  have hlt2 : f.totalStackSize < W32 := by simpa [W32] using hlt
  have hd : diff f < W32 := Nat.mod_lt _ (by norm_num [W32])
  obtain ⟨h1, h2, h3, -⟩ := pushLoop_aligned (diff f) b 0 hal
  have hr := callPushToStack_aligned_rsp (pushLoop (diff f) b 0).1 b.childSp h2
  have hm := callPushToStack_aligned_mem (pushLoop (diff f) b 0).1 b.childSp h2
  have hdec : fixupDecrement f (pushLoop (diff f) b 0).2 = f.totalStackSize - 8 * (diff f + 1) := by
    rw [h1]
    simp only [fixupDecrement, W32_eq] at *
    omega
  refine ⟨?_, by rw [h1]; omega⟩
  intro k hk1 hk2
  have hz := pushLoop_zeros (diff f) b 0 hal hd k hk1 hk2
  have h64 : (2 : Nat) ^ 64 = W64 := rfl
  rw [processFrame_s, if_pos htake, h64]
  simp only [fixupPath, writeReturnAddress_mem, hr, hm, hdec]
  rw [read64_write64_far, read64_write64_far, hz]
  · intro j hj
    simp only [offsetFrom, W64_eq, W32_eq] at *
    omega
  · intro j hj
    simp only [offsetFrom, W64_eq, W32_eq] at *
    omega

theorem placeholder_slots_zero_witness :
    takesFixupPath (processFrame (afterSentinel (machineAt 0x10000)) frameA) frameB = true ∧
    (processFrame (afterSentinel (machineAt 0x10000)) frameA).s.Context.Rsp % 8 = 0 ∧
    8 * (diff frameB + 1) < frameB.totalStackSize ∧ frameB.totalStackSize < 2 ^ 32 ∧
    (∀ k, 1 ≤ k → k ≤ diff frameB →
      read64 (processFrame (processFrame (afterSentinel (machineAt 0x10000)) frameA) frameB).s.mem
        ((processFrame (afterSentinel (machineAt 0x10000)) frameA).s.Context.Rsp + 2 ^ 64 - 8 * k)
        = 0) ∧
    (pushLoop (diff frameB) (processFrame (afterSentinel (machineAt 0x10000)) frameA) 0).2 =
      diff frameB * 8 :=
  ⟨by decide, by decide, by decide, by decide,
    placeholder_slots_zero (processFrame (afterSentinel (machineAt 0x10000)) frameA) frameB
      (by decide) (by decide) (by decide) (by decide)⟩

/-! ## Alignment during the run -/

theorem PushToStack_aligned_ne (s : Machine) (v : Nat) (h : s.Context.Rsp % 8 = 0) :
    PushToStack s v ≠ s := by
  intro heq
  have hr := congrArg (fun m => m.Context.Rsp) heq
  simp only [PushToStack_aligned s v h, subRsp_eight, W64_eq] at hr
  omega

theorem callPushToStack_alignedRun (b : Builder) (v : Nat) (h : AlignedRun b) :
    AlignedRun (callPushToStack b v) := by
  obtain ⟨hal, hcalls⟩ := h
  refine ⟨?_, ?_⟩
  · rw [callPushToStack_aligned_rsp b v hal]
    simp only [W64_eq]
    omega
  · intro c hc
    rw [callPushToStack_calls, List.mem_append, List.mem_singleton] at hc
    rcases hc with hc | hc
    · exact hcalls c hc
    · rw [hc]; exact hal

theorem pushLoop_alignedRun (n : Nat) : ∀ (b : Builder) (tmp : Nat), AlignedRun b →
    AlignedRun (pushLoop n b tmp).1 := by
  induction n with
  | zero => intro b tmp h; exact h
  | succ n ih => intro b tmp h; exact ih _ _ (callPushToStack_alignedRun b 0 h)

theorem writeReturnAddress_aligned (s : Machine) (n : Nat) (f : StackFrame)
    (h : s.Context.Rsp % 8 = 0) (hn : n % 8 = 0) :
    (writeReturnAddress s n f).Context.Rsp % 8 = 0 := by
  rw [writeReturnAddress_rsp]
  simp only [W64_eq]
  omega

theorem processFrame_alignedRun (b : Builder) (f : StackFrame) (h : AlignedRun b)
    (hf : f.totalStackSize % 8 = 0) : AlignedRun (processFrame b f) := by
  have hbranch : AlignedRun (if takesFixupPath b f then fixupPath b f else normalPath b f) := by
    split
    · have h2 := callPushToStack_alignedRun _ b.childSp (pushLoop_alignedRun (diff f) b 0 h)
      have hdec : fixupDecrement f (pushLoop (diff f) b 0).2 % 8 = 0 := by
        rw [pushLoop_counter]
        simp only [fixupDecrement, W32_eq]
        omega
      exact ⟨writeReturnAddress_aligned _ _ f h2.1 hdec, h2.2⟩
    · exact ⟨writeReturnAddress_aligned _ _ f h.1 hf, h.2⟩
  unfold processFrame recordChildSp
  split
  · exact hbranch
  · exact hbranch

theorem runFrom_alignedRun (b : Builder) (frames : List StackFrame) (h : AlignedRun b)
    (hsz : ∀ f ∈ frames, f.totalStackSize % 8 = 0) : AlignedRun (runFrom b frames) := by
  induction frames with
  | nil => exact h
  | cons f rest ih =>
    rw [runFrom_cons]
    exact processFrame_alignedRun _ f (ih (fun g hg => hsz g (List.mem_cons_of_mem _ hg)))
      (hsz f (List.mem_cons_self _ _))

/-- C18: when the initial stack pointer and every frame's `totalStackSize` are multiples
of 8, the stack pointer is a multiple of 8 at every call of `PushToStack` made during
`InitialiseFakeThreadState` and at the end, so every one of those calls changes the state
(none is a silent no-op). -/
theorem builder_alignment (s : Machine) (frames : List StackFrame)
    (hsp : s.Context.Rsp % 8 = 0) (hsz : ∀ f ∈ frames, f.totalStackSize % 8 = 0) :
    (∀ c ∈ (InitialiseFakeThreadStateRun s frames).calls, c.1 % 8 = 0) ∧
    (InitialiseFakeThreadState s frames).Context.Rsp % 8 = 0 ∧
    (∀ c ∈ (InitialiseFakeThreadStateRun s frames).calls, ∀ m : Machine,
      m.Context.Rsp = c.1 → PushToStack m c.2 ≠ m) := by
  have h0 : AlignedRun (afterSentinel s) :=
    callPushToStack_alignedRun (Builder.start s) 0 ⟨hsp, fun c hc => by cases hc⟩
  obtain ⟨hfin, hcalls⟩ := runFrom_alignedRun (afterSentinel s) frames h0 hsz
  refine ⟨hcalls, hfin, ?_⟩
  intro c hc m hm
  exact PushToStack_aligned_ne m c.2 (by rw [hm]; exact hcalls c hc)

theorem builder_alignment_witness :
    (machineAt 0x10000).Context.Rsp % 8 = 0 ∧
    (∀ f ∈ [plainFrame 0x20 0x1000, frameB, frameA], f.totalStackSize % 8 = 0) ∧
    (∀ c ∈ (InitialiseFakeThreadStateRun (machineAt 0x10000)
      [plainFrame 0x20 0x1000, frameB, frameA]).calls, c.1 % 8 = 0) ∧
    (InitialiseFakeThreadState (machineAt 0x10000)
      [plainFrame 0x20 0x1000, frameB, frameA]).Context.Rsp % 8 = 0 :=
  ⟨by decide, by decide,
    (builder_alignment (machineAt 0x10000) [plainFrame 0x20 0x1000, frameB, frameA]
      (by decide) (by decide)).1,
    (builder_alignment (machineAt 0x10000) [plainFrame 0x20 0x1000, frameB, frameA]
      (by decide) (by decide)).2.1⟩


/-! ## The fixup path from a misaligned stack pointer -/

theorem callPushToStack_misaligned (b : Builder) (v : Nat) (h : b.s.Context.Rsp % 8 ≠ 0) :
    (callPushToStack b v).s = b.s := by
  simp only [callPushToStack]
  exact PushToStack_misaligned b.s v h

theorem pushLoop_misaligned (n : Nat) : ∀ (b : Builder) (tmp : Nat),
    b.s.Context.Rsp % 8 ≠ 0 → (pushLoop n b tmp).1.s = b.s := by
  induction n with
  | zero => intro b tmp _; rfl
  | succ n ih =>
    intro b tmp h
    have h1 := callPushToStack_misaligned b 0 h
    simp only [pushLoop]
    rw [ih (callPushToStack b 0) (tmp + 8) (by rw [h1]; exact h), h1]

/-- The fixup path entered with a misaligned stack pointer: the machine is untouched by
the pushes, and the frame is the return-address write after a decrement of
`fixupDecrement`. -/
theorem fixupPath_misaligned (b : Builder) (f : StackFrame) (h : b.s.Context.Rsp % 8 ≠ 0) :
    (callPushToStack (pushLoop (diff f) b 0).1 b.childSp).s = b.s ∧
    (fixupPath b f).s = writeReturnAddress b.s (fixupDecrement f (8 * diff f)) f := by
  have h1 := pushLoop_misaligned (diff f) b 0 h
  have h2 : (callPushToStack (pushLoop (diff f) b 0).1 b.childSp).s = b.s := by
    rw [callPushToStack_misaligned _ _ (by rw [h1]; exact h), h1]
  refine ⟨h2, ?_⟩
  simp only [fixupPath, h2, pushLoop_counter, Nat.zero_add]

/-! ## Counting the calls of `PushToStack` -/

theorem pushLoop_calls_length (n : Nat) : ∀ (b : Builder) (tmp : Nat),
    (pushLoop n b tmp).1.calls.length = b.calls.length + n := by
  induction n with
  | zero => intro b tmp; rfl
  | succ n ih =>
    intro b tmp
    simp only [pushLoop, ih, callPushToStack_calls, List.length_append, List.length_singleton]
    omega

theorem fixupPath_calls (b : Builder) (f : StackFrame) :
    (fixupPath b f).calls =
      (pushLoop (diff f) b 0).1.calls ++ [((pushLoop (diff f) b 0).1.s.Context.Rsp, b.childSp)] :=
  rfl

/-- One iteration makes `diff + 1` calls of `PushToStack` on the fixup path and none on
the normal path. -/
theorem processFrame_calls_length (b : Builder) (f : StackFrame) :
    (processFrame b f).calls.length =
      b.calls.length + (if takesFixupPath b f then diff f + 1 else 0) := by
  cases ht : takesFixupPath b f
  · rw [processFrame_normal_calls b f ht]; simp
  · rw [processFrame_fixup b f ht, recordChildSp_calls, fixupPath_calls]
    simp only [List.length_append, List.length_singleton, pushLoop_calls_length, if_true]
    omega

theorem runFrom_calls_length (b : Builder) (frames : List StackFrame) :
    (runFrom b frames).calls.length = b.calls.length + fixupPushes b frames := by
  induction frames with
  | nil => rfl
  | cons f rest ih =>
    rw [runFrom_cons, processFrame_calls_length, ih]
    simp only [fixupPushes]
    omega

/-- C20: `InitialiseFakeThreadState` is a total function; its loop is one application of
`processFrame` per frame of the list, `len(frames)` in all, and it calls `PushToStack`
exactly `1 + (sum over the frames that take the fixup path of diff + 1)` times. -/
theorem bounded_termination (s : Machine) (frames : List StackFrame) :
    InitialiseFakeThreadStateRun s frames =
      List.foldl processFrame (afterSentinel s) frames.reverse ∧
    frames.reverse.length = frames.length ∧
    (InitialiseFakeThreadStateRun s frames).calls.length =
      1 + fixupPushes (afterSentinel s) frames := by
  refine ⟨processFrames_eq_foldl _ _, List.length_reverse _, ?_⟩
  simp only [InitialiseFakeThreadStateRun, runFrom_calls_length, afterSentinel_calls,
    List.length_singleton]

/-! ## Two pending fixups -/

/-- While a fixup is pending, frames that do not take the fixup path do not push rbp; they
keep the fixup pending and make no call of `PushToStack`. -/
theorem NoneConsumes.pending (fs : List StackFrame) : ∀ (b : Builder),
    b.bPreviousFrameSetUWOP_SET_FPREG = true → NoneConsumes b fs →
    (∀ m ∈ fs, m.pushRbp = false) ∧
    (processFrames fs b).bPreviousFrameSetUWOP_SET_FPREG = true ∧
    (processFrames fs b).calls = b.calls := by
  induction fs with
  | nil => intro b hb _; exact ⟨fun m hm => (by cases hm), hb, rfl⟩
  | cons f fs ih =>
    intro b hb h
    obtain ⟨h1, h2⟩ := h
    have hp : f.pushRbp = false := by
      simpa [takesFixupPath, hb] using h1
    have hflag : (processFrame b f).bPreviousFrameSetUWOP_SET_FPREG = true := by
      simp [processFrame_flag, hb, hp]
    obtain ⟨i1, i2, i3⟩ := ih (processFrame b f) hflag h2
    refine ⟨?_, i2, i3.trans (processFrame_normal_calls b f h1)⟩
    intro m hm
    rcases List.mem_cons.mp hm with rfl | hm
    · exact hp
    · exact i1 m hm

/-- The claim of C11 fails when a third frame sets the frame pointer after E2: the next
frame on the fixup path pushes the third frame's value, and the value of E2 is pushed by
no call at all. -/
theorem last_write_wins_counterexample :
    frameA.setsFramePointer = true ∧ (setterFrame 0x20 0x1000).setsFramePointer = true ∧
    NoneConsumes (processFrame (afterSentinel (machineAt 0x10000)) frameA)
      [setterFrame 0x20 0x1000] ∧
    NoneConsumes (processFrames [frameA, setterFrame 0x20 0x1000]
      (afterSentinel (machineAt 0x10000))) [setterFrame 0x40 0x2000] ∧
    takesFixupPath (processFrames [frameA, setterFrame 0x20 0x1000, setterFrame 0x40 0x2000]
      (afterSentinel (machineAt 0x10000))) frameB = true ∧
    ∀ c ∈ (processFrames [frameA, setterFrame 0x20 0x1000, setterFrame 0x40 0x2000, frameB]
        (afterSentinel (machineAt 0x10000))).calls,
      c.2 ≠ ((processFrames [frameA, setterFrame 0x20 0x1000]
        (afterSentinel (machineAt 0x10000))).s.Context.Rsp + 8) % 2 ^ 64 := by
  decide

/-- C11 (amended): let E1 and then E2 set the frame pointer, let no frame processed after
E1 up to and including E2 take the fixup path, let P be the next frame after E2 that takes
the fixup path, and let no frame processed between E2 and P set the frame pointer.  Then
the value P pushes as `childSp` is E2's post-adjustment stack pointer plus 8, and no call
of `PushToStack` is made between E1 and P, so the value recorded for E1 is pushed
nowhere. -/
theorem last_write_wins (b : Builder) (E1 E2 P : StackFrame) (mid1 mid2 : List StackFrame)
    (hE1 : E1.setsFramePointer = true) (hE2 : E2.setsFramePointer = true)
    (hnone1 : NoneConsumes (processFrame b E1) (mid1 ++ [E2]))
    (hnone2 : NoneConsumes (processFrames (mid1 ++ [E2]) (processFrame b E1)) mid2)
    (hmid2 : ∀ m ∈ mid2, m.setsFramePointer = false)
    (hP : takesFixupPath
      (processFrames mid2 (processFrames (mid1 ++ [E2]) (processFrame b E1))) P = true) :
    (processFrame (processFrames mid2 (processFrames (mid1 ++ [E2]) (processFrame b E1))) P).calls =
      (pushLoop (diff P)
          (processFrames mid2 (processFrames (mid1 ++ [E2]) (processFrame b E1))) 0).1.calls ++
        [((pushLoop (diff P)
            (processFrames mid2 (processFrames (mid1 ++ [E2]) (processFrame b E1))) 0).1.s.Context.Rsp,
          ((processFrames (mid1 ++ [E2]) (processFrame b E1)).s.Context.Rsp + 8) % 2 ^ 64)] ∧
    (processFrames mid2 (processFrames (mid1 ++ [E2]) (processFrame b E1))).calls =
      (processFrame b E1).calls := by
  obtain ⟨-, hf1⟩ := processFrame_sets b E1 hE1
  obtain ⟨-, -, hcalls1⟩ := NoneConsumes.pending _ _ hf1 hnone1
  have hsnoc : processFrames (mid1 ++ [E2]) (processFrame b E1) =
      processFrame (processFrames mid1 (processFrame b E1)) E2 := processFrames_snoc _ _ _
  have hset : (processFrames (mid1 ++ [E2]) (processFrame b E1)).childSp =
      ((processFrames (mid1 ++ [E2]) (processFrame b E1)).s.Context.Rsp + 8) % W64 ∧
      (processFrames (mid1 ++ [E2]) (processFrame b E1)).bPreviousFrameSetUWOP_SET_FPREG = true := by
    rw [hsnoc]
    exact processFrame_sets _ E2 hE2
  obtain ⟨hc2, hf2⟩ := hset
  obtain ⟨hpush2, -, hcalls2⟩ := NoneConsumes.pending _ _ hf2 hnone2
  obtain ⟨hchild, -⟩ := processFrames_plain mid2
    (processFrames (mid1 ++ [E2]) (processFrame b E1)) (fun m hm => ⟨hpush2 m hm, hmid2 m hm⟩)
  refine ⟨?_, hcalls2.trans hcalls1⟩
  rw [processFrame_fixup _ _ hP, recordChildSp_calls, fixupPath_calls, hchild, hc2]
  rfl

theorem last_write_wins_witness :
    frameA.setsFramePointer = true ∧ (setterFrame 0x20 0x3000).setsFramePointer = true ∧
    NoneConsumes (processFrame (afterSentinel (machineAt 0x10000)) frameA)
      ([plainFrame 0x20 0x1000] ++ [setterFrame 0x20 0x3000]) ∧
    NoneConsumes (processFrames ([plainFrame 0x20 0x1000] ++ [setterFrame 0x20 0x3000])
      (processFrame (afterSentinel (machineAt 0x10000)) frameA)) [plainFrame 0x28 0x4000] ∧
    (∀ m ∈ [plainFrame 0x28 0x4000], m.setsFramePointer = false) ∧
    takesFixupPath (processFrames [plainFrame 0x28 0x4000]
      (processFrames ([plainFrame 0x20 0x1000] ++ [setterFrame 0x20 0x3000])
        (processFrame (afterSentinel (machineAt 0x10000)) frameA))) frameB = true ∧
    (processFrames [plainFrame 0x28 0x4000]
      (processFrames ([plainFrame 0x20 0x1000] ++ [setterFrame 0x20 0x3000])
        (processFrame (afterSentinel (machineAt 0x10000)) frameA))).calls =
      (processFrame (afterSentinel (machineAt 0x10000)) frameA).calls :=
  ⟨by decide, by decide, by decide, by decide, by decide, by decide,
    (last_write_wins (afterSentinel (machineAt 0x10000)) frameA (setterFrame 0x20 0x3000) frameB
      [plainFrame 0x20 0x1000] [plainFrame 0x28 0x4000] (by decide) (by decide) (by decide)
      (by decide) (by decide) (by decide)).2⟩


/-- The count of C20 on the fixup scenario: frame B makes `diff + 1 = 3` calls, so the run
makes four. -/
theorem bounded_termination_example :
    fixupPushes (afterSentinel (machineAt 0x10000)) [frameB, frameA] = 3 ∧
    (InitialiseFakeThreadStateRun (machineAt 0x10000) [frameB, frameA]).calls.length = 4 := by
  decide


/-! ## The layout of a well-formed run -/

/-- C21: from an 8-aligned stack pointer, when no frame takes the fixup path, every
`totalStackSize` is a multiple of 8 and at least 8, and the initial stack pointer minus 8
minus the sum of the sizes does not go below 0, the `N + 1` words read at the final stack
pointer plus the sizes of the frames before position `i`, for `i = 0, ..., N`, are the
return addresses of the frames in list order followed by the sentinel 0. -/
theorem well_formed_layout (s : Machine) (frames : List StackFrame)
    (hsp : s.Context.Rsp % 8 = 0) (hlt : s.Context.Rsp < 2 ^ 64)
    (hno : NoFixup (afterSentinel s) frames)
    (hsz : ∀ f ∈ frames, f.totalStackSize % 8 = 0 ∧ 8 ≤ f.totalStackSize)
    (hra : ∀ f ∈ frames, f.returnAddress < 2 ^ 64)
    (hw : 8 + totalSize frames ≤ s.Context.Rsp) :
    (List.range (frames.length + 1)).map
        (fun i => read64 (InitialiseFakeThreadState s frames).mem
          ((InitialiseFakeThreadState s frames).Context.Rsp + sizeBefore frames i)) =
      frames.map StackFrame.returnAddress ++ [0] := by
  have hfit := NoFixup.fixupsFit _ _ hno
  have h8 : ∀ f ∈ frames, 8 ≤ f.totalStackSize := fun f hf => (hsz f hf).2
  have hw2 : totalSize frames + 8 ≤ W64 := by
    simp only [W64_eq]
    have : s.Context.Rsp < 18446744073709551616 := by simpa using hlt
    omega
  obtain ⟨-, hread⟩ := runFrom_layout _ frames hfit h8 (by omega)
  obtain ⟨-, hzero⟩ := sentinel_kept s frames hsp hfit h8 hw2
  apply List.ext_getElem
  · simp
  · intro i h1 h2
    simp only [List.getElem_map, List.getElem_range]
    by_cases hi : i < frames.length
    · rw [List.getElem_append_left (by simpa using hi), List.getElem_map]
      have h := hread i hi
      have hlt3 : frames[i].returnAddress < W64 := by
        simpa [W64] using hra _ (List.getElem_mem hi)
      rw [Nat.mod_eq_of_lt hlt3] at h
      exact h
    · have hiN : i = frames.length := by
        simp only [List.length_map, List.length_range] at h1
        omega
      subst hiN
      rw [List.getElem_append_right (by simp)]
      simp only [List.length_map, Nat.sub_self, List.getElem_cons_zero, sizeBefore_length]
      exact hzero

theorem well_formed_layout_witness :
    (machineAt 0x10000).Context.Rsp % 8 = 0 ∧ (machineAt 0x10000).Context.Rsp < 2 ^ 64 ∧
    NoFixup (afterSentinel (machineAt 0x10000))
      [plainFrame 0x20 0x1000, plainFrame 0x28 0x2000, plainFrame 0x30 0x3000] ∧
    (∀ f ∈ [plainFrame 0x20 0x1000, plainFrame 0x28 0x2000, plainFrame 0x30 0x3000],
      f.totalStackSize % 8 = 0 ∧ 8 ≤ f.totalStackSize) ∧
    (∀ f ∈ [plainFrame 0x20 0x1000, plainFrame 0x28 0x2000, plainFrame 0x30 0x3000],
      f.returnAddress < 2 ^ 64) ∧
    8 + totalSize [plainFrame 0x20 0x1000, plainFrame 0x28 0x2000, plainFrame 0x30 0x3000] ≤
      (machineAt 0x10000).Context.Rsp ∧
    (List.range ([plainFrame 0x20 0x1000, plainFrame 0x28 0x2000,
        plainFrame 0x30 0x3000].length + 1)).map
        (fun i => read64 (InitialiseFakeThreadState (machineAt 0x10000)
            [plainFrame 0x20 0x1000, plainFrame 0x28 0x2000, plainFrame 0x30 0x3000]).mem
          ((InitialiseFakeThreadState (machineAt 0x10000)
            [plainFrame 0x20 0x1000, plainFrame 0x28 0x2000, plainFrame 0x30 0x3000]).Context.Rsp +
            sizeBefore [plainFrame 0x20 0x1000, plainFrame 0x28 0x2000, plainFrame 0x30 0x3000] i)) =
      [plainFrame 0x20 0x1000, plainFrame 0x28 0x2000,
        plainFrame 0x30 0x3000].map StackFrame.returnAddress ++ [0] :=
  ⟨by decide, by decide, by decide, by decide, by decide, by decide,
    well_formed_layout (machineAt 0x10000) _ (by decide) (by decide) (by decide) (by decide)
      (by decide) (by decide)⟩


/-! ## The misaligned fixup frame -/

/-- C23: when a frame takes the fixup path with a stack pointer `s` that is not a multiple
of 8 and `totalStackSize ≥ 8 * (diff + 1)`, the `diff + 1` pushes leave context and memory
as they were, `tmpStackSizeCounter` still reaches `8 * diff`, the frame lowers the stack
pointer by `totalStackSize - 8 * (diff + 1)` only, its return address is written there, and
that write is the only change to memory, so `childSp` is written nowhere. -/
theorem misaligned_fixup_under_allocates (b : Builder) (f : StackFrame)
    (htake : takesFixupPath b f = true) (hmis : b.s.Context.Rsp % 8 ≠ 0)
    (hsize : 8 * (diff f + 1) ≤ f.totalStackSize) (hlt : f.totalStackSize < 2 ^ 32)
    (hra : f.returnAddress < 2 ^ 64) :
    (callPushToStack (pushLoop (diff f) b 0).1 b.childSp).s = b.s ∧
    (pushLoop (diff f) b 0).2 = 8 * diff f ∧
    ((processFrame b f).s.Context.Rsp : Int) =
      ((b.s.Context.Rsp : Int) - ((f.totalStackSize : Int) - 8 * ((diff f : Int) + 1))) % 2 ^ 64 ∧
    read64 (processFrame b f).s.mem (processFrame b f).s.Context.Rsp = f.returnAddress ∧
    (processFrame b f).s.mem =
      write64 b.s.mem (processFrame b f).s.Context.Rsp f.returnAddress := by
  obtain ⟨h1, h2⟩ := fixupPath_misaligned b f hmis
  have hs : (processFrame b f).s = writeReturnAddress b.s (fixupDecrement f (8 * diff f)) f := by
    rw [processFrame_s, if_pos htake, h2]
  have hdec : fixupDecrement f (8 * diff f) = f.totalStackSize - 8 * (diff f + 1) := by
    simp only [fixupDecrement, W32_eq] at *
    omega
  refine ⟨h1, by rw [pushLoop_counter]; omega, ?_, ?_, ?_⟩
  · rw [hs, writeReturnAddress_rsp, hdec]
    simp only [W64_eq] at *
    omega
  · rw [processFrame_read]
    exact Nat.mod_eq_of_lt (by simpa [W64] using hra)
  · rw [hs]
    rfl

theorem misaligned_fixup_under_allocates_witness :
    takesFixupPath (processFrame (afterSentinel (machineAt 0x10004)) frameA) frameB = true ∧
    (processFrame (afterSentinel (machineAt 0x10004)) frameA).s.Context.Rsp % 8 ≠ 0 ∧
    8 * (diff frameB + 1) ≤ frameB.totalStackSize ∧ frameB.totalStackSize < 2 ^ 32 ∧
    frameB.returnAddress < 2 ^ 64 ∧
    ((processFrame (processFrame (afterSentinel (machineAt 0x10004)) frameA) frameB).s.Context.Rsp
      : Int) =
      (((processFrame (afterSentinel (machineAt 0x10004)) frameA).s.Context.Rsp : Int) -
        ((frameB.totalStackSize : Int) - 8 * ((diff frameB : Int) + 1))) % 2 ^ 64 :=
  ⟨by decide, by decide, by decide, by decide, by decide,
    (misaligned_fixup_under_allocates (processFrame (afterSentinel (machineAt 0x10004)) frameA)
      frameB (by decide) (by decide) (by decide) (by decide) (by decide)).2.2.1⟩


/-! ## The run with the flags cleared -/

theorem FixupsRoom.drop (b : Builder) (frames : List StackFrame) (h : FixupsRoom b frames) :
    ∀ i : Nat, FixupsRoom b (frames.drop i) := by
  induction frames with
  | nil => intro i; simpa using h
  | cons f rest ih =>
    intro i
    cases i with
    | zero => exact h
    | succ j => exact ih h.1 j

/-- In an aligned run over frames whose sizes are multiples of 8, a fixup frame with room
for its pushes fits. -/
theorem fixupsFit_of_room (b : Builder) (frames : List StackFrame) (hal : AlignedRun b)
    (hsz : ∀ f ∈ frames, f.totalStackSize % 8 = 0) (hroom : FixupsRoom b frames) :
    FixupsFit b frames := by
  induction frames with
  | nil => trivial
  | cons f rest ih =>
    have hrest : ∀ g ∈ rest, g.totalStackSize % 8 = 0 :=
      fun g hg => hsz g (List.mem_cons_of_mem _ hg)
    refine ⟨ih hrest hroom.1, fun ht => ?_⟩
    obtain ⟨h1, h2⟩ := hroom.2 ht
    exact ⟨(runFrom_alignedRun b rest hal hrest).1, h1, h2⟩

theorem noFixup_clearFlags (b : Builder) (frames : List StackFrame) :
    NoFixup b (frames.map clearFlags) := by
  induction frames with
  | nil => trivial
  | cons f rest ih => exact ⟨ih, takesFixupPath_of_not_pushRbp _ _ rfl⟩

theorem totalSize_clearFlags (frames : List StackFrame) :
    totalSize (frames.map clearFlags) = totalSize frames := by
  induction frames with
  | nil => rfl
  | cons f rest ih =>
    rw [List.map_cons, totalSize_cons, totalSize_cons, ih]
    rfl

theorem afterSentinel_alignedRun (s : Machine) (hsp : s.Context.Rsp % 8 = 0) :
    AlignedRun (afterSentinel s) :=
  callPushToStack_alignedRun (Builder.start s) 0 ⟨hsp, fun c hc => by cases hc⟩

/-- C22: from an 8-aligned stack pointer, when every `totalStackSize` is a multiple of 8
and every frame taking the fixup path has `totalStackSize ≥ 8 * (diff + 1)`, the run on a
frame list and the run on the same list with all `pushRbp` and `setsFramePointer` flags
cleared end with the same stack pointer, the initial one minus 8 minus the sum of the
sizes, and for every position `i` both runs leave frame `i` at the same stack pointer, where
its return address is written. -/
theorem fixup_moves_like_normal (s : Machine) (frames : List StackFrame)
    (hsp : s.Context.Rsp % 8 = 0) (hsz : ∀ f ∈ frames, f.totalStackSize % 8 = 0)
    (hroom : FixupsRoom (afterSentinel s) frames) :
    ((InitialiseFakeThreadState s frames).Context.Rsp : Int) =
      ((s.Context.Rsp : Int) - 8 - (totalSize frames : Int)) % 2 ^ 64 ∧
    (InitialiseFakeThreadState s frames).Context.Rsp =
      (InitialiseFakeThreadState s (frames.map clearFlags)).Context.Rsp ∧
    (∀ (i : Nat) (hi : i < frames.length),
      (runFrom (afterSentinel s) (frames.drop i)).s.Context.Rsp =
        (runFrom (afterSentinel s) ((frames.map clearFlags).drop i)).s.Context.Rsp ∧
      read64 (runFrom (afterSentinel s) (frames.drop i)).s.mem
        (runFrom (afterSentinel s) (frames.drop i)).s.Context.Rsp =
        frames[i].returnAddress % 2 ^ 64 ∧
      read64 (runFrom (afterSentinel s) ((frames.map clearFlags).drop i)).s.mem
        (runFrom (afterSentinel s) ((frames.map clearFlags).drop i)).s.Context.Rsp =
        frames[i].returnAddress % 2 ^ 64) := by
  have hal := afterSentinel_alignedRun s hsp
  have hr := afterSentinel_rsp s hsp
  have hlt0 : (afterSentinel s).s.Context.Rsp < W64 := by
    rw [hr]; exact Nat.mod_lt _ (by norm_num [W64])
  have hkey : ∀ i : Nat,
      (runFrom (afterSentinel s) (frames.drop i)).s.Context.Rsp =
        ((afterSentinel s).s.Context.Rsp + W64 - totalSize (frames.drop i) % W64) % W64 ∧
      (runFrom (afterSentinel s) ((frames.map clearFlags).drop i)).s.Context.Rsp =
        ((afterSentinel s).s.Context.Rsp + W64 - totalSize (frames.drop i) % W64) % W64 := by
    intro i
    have hfit : FixupsFit (afterSentinel s) (frames.drop i) :=
      fixupsFit_of_room _ _ hal (fun f hf => hsz f (List.mem_of_mem_drop hf))
        (FixupsRoom.drop _ _ hroom i)
    have h1 := runFrom_rsp _ _ hfit
    have h2 := runFrom_rsp _ _
      (NoFixup.fixupsFit _ _ (noFixup_clearFlags (afterSentinel s) (frames.drop i)))
    rw [totalSize_clearFlags] at h2
    have l1 := runFrom_rsp_lt (afterSentinel s) (frames.drop i) hlt0
    have l2 := runFrom_rsp_lt (afterSentinel s) ((frames.drop i).map clearFlags) hlt0
    rw [Nat.mod_eq_of_lt l1] at h1
    rw [Nat.mod_eq_of_lt l2] at h2
    rw [← List.map_drop]
    exact ⟨h1, h2⟩
  have h0 := hkey 0
  simp only [List.drop_zero] at h0
  refine ⟨?_, ?_, ?_⟩
  · simp only [InitialiseFakeThreadState, InitialiseFakeThreadStateRun]
    rw [h0.1, hr]
    simp only [W64_eq]
    omega
  · simp only [InitialiseFakeThreadState, InitialiseFakeThreadStateRun]
    rw [h0.1, h0.2]
  · intro i hi
    have hk := hkey i
    refine ⟨by rw [hk.1, hk.2], ?_, ?_⟩
    · rw [List.drop_eq_getElem_cons hi, runFrom_cons]
      exact processFrame_read _ _
    · have hi2 : i < (frames.map clearFlags).length := by simpa using hi
      rw [List.drop_eq_getElem_cons hi2, runFrom_cons, processFrame_read, List.getElem_map]
      rfl

theorem fixup_moves_like_normal_witness :
    (machineAt 0x10000).Context.Rsp % 8 = 0 ∧
    (∀ f ∈ [plainFrame 0x20 0x1000, frameB, frameA], f.totalStackSize % 8 = 0) ∧
    FixupsRoom (afterSentinel (machineAt 0x10000)) [plainFrame 0x20 0x1000, frameB, frameA] ∧
    takesFixupPath (runFrom (afterSentinel (machineAt 0x10000)) [frameA]) frameB = true ∧
    (InitialiseFakeThreadState (machineAt 0x10000)
      [plainFrame 0x20 0x1000, frameB, frameA]).Context.Rsp =
      (InitialiseFakeThreadState (machineAt 0x10000)
        ([plainFrame 0x20 0x1000, frameB, frameA].map clearFlags)).Context.Rsp :=
  ⟨by decide, by decide, by decide, by decide,
    (fixup_moves_like_normal (machineAt 0x10000) [plainFrame 0x20 0x1000, frameB, frameA]
      (by decide) (by decide) (by decide)).2.1⟩


/-! ## Where the run writes -/

theorem write64_high (mem : Memory) (addr v x : Nat) (h : W64 ≤ x) :
    write64 mem addr v x = mem x := by
  have : ¬ (x < W64 ∧ offsetFrom addr x < 8) := by omega
  simp [write64, this]

theorem PushToStack_mem_high (s : Machine) (v x : Nat) (h : W64 ≤ x) :
    (PushToStack s v).mem x = s.mem x := by
  unfold PushToStack
  split
  · rfl
  · exact write64_high _ _ _ _ h

theorem pushLoop_mem_high (n : Nat) (x : Nat) (h : W64 ≤ x) : ∀ (b : Builder) (tmp : Nat),
    (pushLoop n b tmp).1.s.mem x = b.s.mem x := by
  induction n with
  | zero => intro b tmp; rfl
  | succ n ih =>
    intro b tmp
    simp only [pushLoop]
    rw [ih (callPushToStack b 0) (tmp + 8)]
    exact PushToStack_mem_high b.s 0 x h

theorem processFrame_mem_high (b : Builder) (f : StackFrame) (x : Nat) (h : W64 ≤ x) :
    (processFrame b f).s.mem x = b.s.mem x := by
  rw [processFrame_s]
  split
  · simp only [fixupPath, writeReturnAddress_mem]
    rw [write64_high _ _ _ _ h]
    exact (PushToStack_mem_high _ _ x h).trans (pushLoop_mem_high _ x h b 0)
  · exact write64_high _ _ _ _ h

/-- One iteration, when the frame's size does not take the stack pointer below 0 and a
frame on the fixup path has room for its pushes: the stack pointer goes down by at most
`totalStackSize`, and every byte changed lies at or above the new stack pointer and below
the old one plus 8. -/
theorem processFrame_confined (b : Builder) (f : StackFrame)
    (hroom : takesFixupPath b f = true →
      8 * (diff f + 1) ≤ f.totalStackSize ∧ f.totalStackSize < W32)
    (hR : b.s.Context.Rsp + 8 ≤ W64) (hnw : f.totalStackSize ≤ b.s.Context.Rsp) :
    (processFrame b f).s.Context.Rsp ≤ b.s.Context.Rsp ∧
    b.s.Context.Rsp ≤ (processFrame b f).s.Context.Rsp + f.totalStackSize ∧
    (∀ x, x < (processFrame b f).s.Context.Rsp ∨ b.s.Context.Rsp + 8 ≤ x →
      (processFrame b f).s.mem x = b.s.mem x) := by
  have hhigh : ∀ x, W64 ≤ x → (processFrame b f).s.mem x = b.s.mem x :=
    fun x hx => processFrame_mem_high b f x hx
  cases ht : takesFixupPath b f
  · -- normal path
    have hs : (processFrame b f).s = writeReturnAddress b.s f.totalStackSize f := by
      rw [processFrame_s, ht]; rfl
    have hrsp : (processFrame b f).s.Context.Rsp = b.s.Context.Rsp - f.totalStackSize := by
      rw [hs, writeReturnAddress_rsp]
      simp only [W64_eq] at *
      omega
    refine ⟨by omega, by omega, ?_⟩
    intro x hx
    by_cases hx64 : W64 ≤ x
    · exact hhigh x hx64
    · rw [hs, writeReturnAddress_mem]
      apply write64_far
      rw [hrsp] at hx
      simp only [offsetFrom, W64_eq] at *
      omega
  · obtain ⟨hfit, hlt⟩ := hroom ht
    by_cases hal : b.s.Context.Rsp % 8 = 0
    · -- fixup path, aligned
      obtain ⟨h1, h2⟩ := fixupPath_fits b f ⟨hal, hfit, hlt⟩
      have hs : (processFrame b f).s = (fixupPath b f).s := by
        rw [processFrame_s, ht]; rfl
      have hrsp : (processFrame b f).s.Context.Rsp = b.s.Context.Rsp - f.totalStackSize := by
        rw [hs, h1]
        simp only [W64_eq] at *
        omega
      refine ⟨by omega, by omega, ?_⟩
      intro x hx
      by_cases hx64 : W64 ≤ x
      · exact hhigh x hx64
      · rw [hs]
        apply h2
        rw [hrsp] at hx
        rw [h1]
        simp only [offsetFrom, W64_eq] at *
        omega
    · -- fixup path, misaligned
      obtain ⟨-, h2⟩ := fixupPath_misaligned b f hal
      have hs : (processFrame b f).s =
          writeReturnAddress b.s (fixupDecrement f (8 * diff f)) f := by
        rw [processFrame_s, ht]; exact h2
      have hdec : fixupDecrement f (8 * diff f) = f.totalStackSize - 8 * (diff f + 1) := by
        simp only [fixupDecrement, W32_eq] at *
        omega
      have hrsp : (processFrame b f).s.Context.Rsp =
          b.s.Context.Rsp - (f.totalStackSize - 8 * (diff f + 1)) := by
        rw [hs, writeReturnAddress_rsp, hdec]
        simp only [W64_eq] at *
        omega
      refine ⟨by omega, by omega, ?_⟩
      intro x hx
      by_cases hx64 : W64 ≤ x
      · exact hhigh x hx64
      · rw [hs, writeReturnAddress_mem, hdec]
        apply write64_far
        rw [hrsp] at hx
        simp only [offsetFrom, W64_eq] at *
        omega


/-- The run from `b`, when the sizes do not take the stack pointer below 0 and every frame
on the fixup path has room: the stack pointer goes down by at most the sum of the sizes,
and every byte changed lies at or above the final stack pointer and below the start
pointer plus 8. -/
theorem runFrom_confined (b : Builder) (frames : List StackFrame)
    (hroom : FixupsRoom b frames) (hR : b.s.Context.Rsp + 8 ≤ W64)
    (hnw : totalSize frames ≤ b.s.Context.Rsp) :
    (runFrom b frames).s.Context.Rsp ≤ b.s.Context.Rsp ∧
    b.s.Context.Rsp ≤ (runFrom b frames).s.Context.Rsp + totalSize frames ∧
    (∀ x, x < (runFrom b frames).s.Context.Rsp ∨ b.s.Context.Rsp + 8 ≤ x →
      (runFrom b frames).s.mem x = b.s.mem x) := by
  induction frames with
  | nil => exact ⟨Nat.le_refl _, Nat.le_add_right _ _, fun _ _ => rfl⟩
  | cons f rest ih =>
    rw [totalSize_cons] at hnw
    obtain ⟨i1, i2, i3⟩ := ih hroom.1 (by omega)
    obtain ⟨p1, p2, p3⟩ := processFrame_confined (runFrom b rest) f hroom.2 (by omega) (by omega)
    rw [runFrom_cons, totalSize_cons]
    refine ⟨by omega, by omega, ?_⟩
    intro x hx
    rw [p3 x (by omega), i3 x (by omega)]

/-- C24: from an 8-aligned stack pointer `sp0`, when every frame on the fixup path has
`totalStackSize ≥ 8 * (diff + 1)` and `sp0 - 8 - (sum of the sizes)` does not go below 0,
`InitialiseFakeThreadState` changes no byte at an address `≥ sp0` and no byte at an
address below the final stack pointer: every byte changed lies in `[finalSp, sp0)`. -/
theorem writes_confined (s : Machine) (frames : List StackFrame)
    (hsp : s.Context.Rsp % 8 = 0) (hlt : s.Context.Rsp < 2 ^ 64)
    (hroom : FixupsRoom (afterSentinel s) frames)
    (hw : 8 + totalSize frames ≤ s.Context.Rsp) :
    (∀ x, s.Context.Rsp ≤ x → (InitialiseFakeThreadState s frames).mem x = s.mem x) ∧
    (∀ x, x < (InitialiseFakeThreadState s frames).Context.Rsp →
      (InitialiseFakeThreadState s frames).mem x = s.mem x) ∧
    (∀ x, (InitialiseFakeThreadState s frames).mem x ≠ s.mem x →
      (InitialiseFakeThreadState s frames).Context.Rsp ≤ x ∧ x < s.Context.Rsp) ∧
    (InitialiseFakeThreadState s frames).Context.Rsp + 8 ≤ s.Context.Rsp := by
  have hlt2 : s.Context.Rsp < W64 := by simpa [W64] using hlt
  have hr : (afterSentinel s).s.Context.Rsp = s.Context.Rsp - 8 := by
    rw [afterSentinel_rsp s hsp]
    simp only [W64_eq] at *
    omega
  have hm := afterSentinel_mem s hsp
  obtain ⟨c1, c2, c3⟩ := runFrom_confined (afterSentinel s) frames hroom
    (by rw [hr]; omega) (by rw [hr]; omega)
  have hsent : ∀ x, x < s.Context.Rsp - 8 ∨ s.Context.Rsp ≤ x →
      (afterSentinel s).s.mem x = s.mem x := by
    intro x hx
    rw [hm]
    by_cases hx64 : W64 ≤ x
    · exact write64_high _ _ _ _ hx64
    · apply write64_far
      simp only [offsetFrom, W64_eq] at *
      omega
  have hout : ∀ x, x < (runFrom (afterSentinel s) frames).s.Context.Rsp ∨ s.Context.Rsp ≤ x →
      (runFrom (afterSentinel s) frames).s.mem x = s.mem x := by
    intro x hx
    rw [c3 x (by omega), hsent x (by omega)]
  simp only [InitialiseFakeThreadState, InitialiseFakeThreadStateRun]
  refine ⟨fun x hx => hout x (Or.inr hx), fun x hx => hout x (Or.inl hx), ?_, by omega⟩
  intro x hne
  by_contra hcon
  exact hne (hout x (by omega))

theorem writes_confined_witness :
    (machineAt 0x10000).Context.Rsp % 8 = 0 ∧ (machineAt 0x10000).Context.Rsp < 2 ^ 64 ∧
    FixupsRoom (afterSentinel (machineAt 0x10000)) [plainFrame 0x24 0x1000, frameB, frameA] ∧
    8 + totalSize [plainFrame 0x24 0x1000, frameB, frameA] ≤ (machineAt 0x10000).Context.Rsp ∧
    (∀ x, (machineAt 0x10000).Context.Rsp ≤ x →
      (InitialiseFakeThreadState (machineAt 0x10000)
        [plainFrame 0x24 0x1000, frameB, frameA]).mem x = (machineAt 0x10000).mem x) ∧
    (∀ x, x < (InitialiseFakeThreadState (machineAt 0x10000)
        [plainFrame 0x24 0x1000, frameB, frameA]).Context.Rsp →
      (InitialiseFakeThreadState (machineAt 0x10000)
        [plainFrame 0x24 0x1000, frameB, frameA]).mem x = (machineAt 0x10000).mem x) :=
  ⟨by decide, by decide, by decide, by decide,
    (writes_confined (machineAt 0x10000) [plainFrame 0x24 0x1000, frameB, frameA]
      (by decide) (by decide) (by decide) (by decide)).1,
    (writes_confined (machineAt 0x10000) [plainFrame 0x24 0x1000, frameB, frameA]
      (by decide) (by decide) (by decide) (by decide)).2.1⟩

end FakeStack
